import Mathlib

/-!
# PointLineCircle: planar point / line / circle kernel

Shallow embedding of `src/PointLineCircle.cpp`.

The C++ code is a family of templates over a numeric scalar type `T`.  The
embedding keeps that parameter: every definition is generic over a linearly
ordered field `T`; `std::abs` is the absolute value of the order, and
`std::sqrt` is passed explicitly as a function `sqrt : T → T` to the
functions that call it.  The theorems instantiate `T` with the real numbers
and `sqrt` with `Real.sqrt` (exact real arithmetic).

The C++ overloads of `intersection` and `distance` get one Lean name per
argument-type combination.
-/

namespace PointLineCircle

/-! ## Data model -/

/-- `class Point<T>`: coordinates `x`, `y`. -/
@[ext]
structure Point (T : Type) where
  x : T
  y : T

/-- `class Circle<T>`: centre `p`, radius `r`. -/
structure Circle (T : Type) where
  p : Point T
  r : T

/-- `class Line<T>`: the line through `p1` and `p2`. -/
structure Line (T : Type) where
  p1 : Point T
  p2 : Point T

section Defs

variable {T : Type} [LinearOrderedField T]

/-! ## Point arithmetic (source lines 19-69) -/

/-- `operator+(Point, Point)`. -/
instance : Add (Point T) := ⟨fun p1 p2 => ⟨p1.x + p2.x, p1.y + p2.y⟩⟩

/-- `operator-(Point, Point)`. -/
instance : Sub (Point T) := ⟨fun p1 p2 => ⟨p1.x - p2.x, p1.y - p2.y⟩⟩

/-- `operator*(T k, Point p)`. -/
instance : HMul T (Point T) (Point T) := ⟨fun k p => ⟨k * p.x, k * p.y⟩⟩

/-- `operator*(Point p, T k)`, which returns `k * p`. -/
instance : HMul (Point T) T (Point T) := ⟨fun p k => k * p⟩

/-- `operator/(Point p, T k)`. -/
instance : HDiv (Point T) T (Point T) := ⟨fun p k => ⟨p.x / k, p.y / k⟩⟩

/-- `dot(p1, p2)`, also `operator*(Point, Point)`. -/
def dot (p1 p2 : Point T) : T := p1.x * p2.x + p1.y * p2.y

/-- `cross(p1, p2)`, also `operator^(Point, Point)`. -/
def cross (p1 p2 : Point T) : T := p1.x * p2.y - p1.y * p2.x

/-- `norm2(p) = p * p`. -/
def norm2 (p : Point T) : T := dot p p

/-- `norm(p) = std::sqrt(norm2(p))`. -/
def norm (sqrt : T → T) (p : Point T) : T := sqrt (norm2 p)

/-- `distance2(p1, p2) = norm2(p1 - p2)`. -/
def distance2 (p1 p2 : Point T) : T := norm2 (p1 - p2)

/-- `distance(Point, Point) = norm(p1 - p2)`. -/
def distance (sqrt : T → T) (p1 p2 : Point T) : T := norm sqrt (p1 - p2)

/-- `rotate90(p) = (p.y, -p.x)`. -/
def rotate90 (p : Point T) : Point T := ⟨p.y, -p.x⟩

/-- `rotate180(p) = (-p.x, -p.y)`. -/
def rotate180 (p : Point T) : Point T := ⟨-p.x, -p.y⟩

/-- `rotate270(p) = (-p.y, p.x)`. -/
def rotate270 (p : Point T) : Point T := ⟨-p.y, p.x⟩

/-- `normalise(p) = p / norm(p)`. -/
def normalise (sqrt : T → T) (p : Point T) : Point T := p / norm sqrt p

/-- `const double eps = 1e-8`. -/
def eps : T := 1e-8

/-! ## Lines (source lines 86-116) -/

/-- `Line::toABC(A, B, C)`: the three output parameters as a triple. -/
def Line.toABC (l : Line T) : T × T × T :=
  (l.p1.y - l.p2.y, l.p2.x - l.p1.x, cross l.p1 l.p2)

/-- `distance(Point p, Line l)`. -/
def distancePointLine (sqrt : T → T) (p : Point T) (l : Line T) : T :=
  |cross (normalise sqrt (l.p2 - l.p1)) (p - l.p1)|

/-- `distance(Line l, Point p)`. -/
def distanceLinePoint (sqrt : T → T) (l : Line T) (p : Point T) : T :=
  distancePointLine sqrt p l

/-- `equidistantLine(p1, p2)`. -/
def equidistantLine (p1 p2 : Point T) : Line T :=
  let o := (p1 + p2) / (2 : T)
  ⟨o, o + rotate90 (p2 - p1)⟩

/-! ## Intersections (source lines 118-195) -/

/-- `intersection(Line l1, Line l2)`. -/
def intersectionLineLine (l1 l2 : Line T) : List (Point T) :=
  let A1 := l1.toABC.1
  let B1 := l1.toABC.2.1
  let C1 := l1.toABC.2.2
  let A2 := l2.toABC.1
  let B2 := l2.toABC.2.1
  let C2 := l2.toABC.2.2
  let det := A1 * B2 - A2 * B1
  if |det| ≤ eps then []
  else [(⟨C2 * B1 - C1 * B2, A2 * C1 - A1 * C2⟩ : Point T) / det]

/-- `intersection(Circle c1, Circle c2)`. -/
def intersectionCircleCircle (sqrt : T → T) (c1 c2 : Circle T) : List (Point T) :=
  let dist2 := distance2 c1.p c2.p
  if dist2 ≤ eps then []
  else
    -- check touching outside
    let rsum := c1.r + c2.r
    let rsum2 := rsum * rsum
    if |dist2 - rsum2| ≤ eps then [(c1.p * c1.r + c2.p * c2.r) / rsum]
    else if dist2 > rsum2 then []
    else
      -- check touching inside
      let rdiff := c1.r - c2.r
      let rdiff2 := rdiff * rdiff
      if |dist2 - rdiff2| ≤ eps then [c1.p + (c2.p - c1.p) * c1.r / (c1.r - c2.r)]
      else if dist2 < rdiff2 then []
      else
        -- two points
        let dist := sqrt dist2
        let cosa := (c1.r * c1.r + dist2 - c2.r * c2.r) / 2 / c1.r / dist
        let sina := sqrt (1 - cosa * cosa)
        let vec := (c2.p - c1.p) / dist
        let o := c1.p + vec * c1.r * cosa
        [o + rotate90 vec * sina * c1.r, o + rotate270 vec * sina * c1.r]

/-- `intersection(Circle c, Line l)`. -/
def intersectionCircleLine (sqrt : T → T) (c : Circle T) (l : Line T) : List (Point T) :=
  let vec := normalise sqrt (l.p2 - l.p1)
  let o := l.p1 + vec * dot vec (c.p - l.p1)
  let dist2 := distance2 o c.p
  if |dist2 - c.r * c.r| ≤ eps then [o]
  else if dist2 > c.r * c.r then []
  else
    let len := sqrt (c.r * c.r - dist2)
    [o + vec * len, o + rotate180 vec * len]

/-- `intersection(Line l, Circle c)`. -/
def intersectionLineCircle (sqrt : T → T) (l : Line T) (c : Circle T) : List (Point T) :=
  intersectionCircleLine sqrt c l

/-- The foot point `o` computed in the first two statements of
`intersection(Circle c, Line l)` (source lines 175-176). -/
def footPoint (sqrt : T → T) (c : Circle T) (l : Line T) : Point T :=
  let vec := normalise sqrt (l.p2 - l.p1)
  l.p1 + vec * dot vec (c.p - l.p1)

/-! ## Derived construction (source lines 201-219) -/

/-- `equiangleCircle(cc1, cc2)`. -/
def equiangleCircle (sqrt : T → T) (cc1 cc2 : Circle T) : Circle T :=
  let c1 := if cc1.r < cc2.r then cc1 else cc2
  let c2 := if cc1.r > cc2.r then cc1 else cc2
  let dist := norm sqrt (c2.p - c1.p)
  let vec := (c2.p - c1.p) / dist
  let din := c1.r * dist / (c2.r + c1.r)
  let dout := c1.r * dist / (c2.r - c1.r)
  let r := (din + dout) / (2 : T)
  ⟨c1.p - vec * (r - din), r⟩

/-- The circle bound to the local reference `c1` by the first statement of `equiangleCircle`
(source line 203). -/
def equiangleCircle_c1 (cc1 cc2 : Circle T) : Circle T :=
  if cc1.r < cc2.r then cc1 else cc2

/-- The circle bound to the local reference `c2` by the second statement of `equiangleCircle`
(source line 204). -/
def equiangleCircle_c2 (cc1 cc2 : Circle T) : Circle T :=
  if cc1.r > cc2.r then cc1 else cc2

/-- The local `dist` of `equiangleCircle` (source line 206). -/
def equiangleCircle_dist (sqrt : T → T) (cc1 cc2 : Circle T) : T :=
  norm sqrt ((equiangleCircle_c2 cc1 cc2).p - (equiangleCircle_c1 cc1 cc2).p)

end Defs

/-! ## Component lemmas for the point operators

Each operator of the source acts coordinate by coordinate; these lemmas read off the
coordinates, so that a statement about points becomes a statement about scalars. -/

section Basic

variable {T : Type} [LinearOrderedField T]

@[simp] theorem add_x (p q : Point T) : (p + q).x = p.x + q.x := rfl
@[simp] theorem add_y (p q : Point T) : (p + q).y = p.y + q.y := rfl
@[simp] theorem sub_x (p q : Point T) : (p - q).x = p.x - q.x := rfl
@[simp] theorem sub_y (p q : Point T) : (p - q).y = p.y - q.y := rfl
@[simp] theorem smul_x (k : T) (p : Point T) : (k * p).x = k * p.x := rfl
@[simp] theorem smul_y (k : T) (p : Point T) : (k * p).y = k * p.y := rfl
@[simp] theorem muls_x (p : Point T) (k : T) : (p * k).x = k * p.x := rfl
@[simp] theorem muls_y (p : Point T) (k : T) : (p * k).y = k * p.y := rfl
@[simp] theorem div_x (p : Point T) (k : T) : (p / k).x = p.x / k := rfl
@[simp] theorem div_y (p : Point T) (k : T) : (p / k).y = p.y / k := rfl

end Basic

/-- The tolerance over the reals is the positive number `10⁻⁸`. -/
theorem eps_real : (eps : ℝ) = 1 / 100000000 := by
  norm_num [eps]

/-- The tolerance is positive. -/
theorem eps_real_pos : (0 : ℝ) < eps := by
  norm_num [eps]

/-! ## Circle-circle intersection -/

/-- In the real numbers the point-to-point distance is `r` as soon as the squared distance
is `r * r` and `r` is not negative. -/
theorem distance_eq_of_distance2 (P Q : Point ℝ) (r : ℝ) (hr : 0 ≤ r)
    (h : distance2 P Q = r * r) : distance Real.sqrt P Q = r := by
  have h2 : norm2 (P - Q) = r * r := h
  unfold distance norm
  rw [h2, Real.sqrt_mul_self hr]

/-- C1 (failing input): on the externally tangent circles of the specification, centres
`(0,0)`, `(3,0)` and radii `1`, `2`, the code returns the single point `(2,0)`.  It is not the
tangency point `(1,0)`: its squared distance to the first centre is `4`, not `r1² = 1`, and
to the second centre `1`, not `r2² = 4`. -/
theorem C1_external_tangent_failing_input :
    intersectionCircleCircle Real.sqrt (⟨⟨0, 0⟩, 1⟩ : Circle ℝ) ⟨⟨3, 0⟩, 2⟩ = [⟨2, 0⟩]
      ∧ (⟨2, 0⟩ : Point ℝ) ≠ ⟨1, 0⟩
      ∧ distance2 (⟨2, 0⟩ : Point ℝ) ⟨0, 0⟩ = 4
      ∧ distance2 (⟨2, 0⟩ : Point ℝ) ⟨3, 0⟩ = 1 := by
  refine ⟨?_, ?_, ?_, ?_⟩
  · simp only [intersectionCircleCircle, distance2, norm2, dot, sub_x, sub_y]
    norm_num [eps]
    ext <;> simp
  · intro h
    have := congrArg Point.x h
    norm_num at this
  · norm_num [distance2, norm2, dot]
  · norm_num [distance2, norm2, dot]

/-- The externally tangent branch in general: for positive radii with squared centre
distance equal to `(r1+r2)²` and above `eps`, the code returns the one point
`(c1.p·r1 + c2.p·r2)/(r1+r2)`, and that point is at distance `r2` from `c1.p` and at distance
`r1` from `c2.p` (the two weights are exchanged with respect to the tangency point). -/
theorem external_tangent_swapped (c1 c2 : Circle ℝ) (hr1 : 0 < c1.r) (hr2 : 0 < c2.r)
    (hD : distance2 c1.p c2.p = (c1.r + c2.r) ^ 2)
    (hd : eps < distance2 c1.p c2.p) :
    intersectionCircleCircle Real.sqrt c1 c2 = [(c1.p * c1.r + c2.p * c2.r) / (c1.r + c2.r)]
      ∧ distance Real.sqrt ((c1.p * c1.r + c2.p * c2.r) / (c1.r + c2.r)) c1.p = c2.r
      ∧ distance Real.sqrt ((c1.p * c1.r + c2.p * c2.r) / (c1.r + c2.r)) c2.p = c1.r := by
  simp only [pow_two] at hD
  have h1 : |distance2 c1.p c2.p - (c1.r + c2.r) * (c1.r + c2.r)| ≤ eps := by
    rw [hD, sub_self, abs_zero]; exact eps_real_pos.le
  have hne : c1.r + c2.r ≠ 0 := by linarith
  refine ⟨?_, distance_eq_of_distance2 _ _ _ hr2.le ?_, distance_eq_of_distance2 _ _ _ hr1.le ?_⟩
  · simp only [intersectionCircleCircle]
    rw [if_neg (not_le.mpr hd), if_pos h1]
  · simp only [distance2, norm2, dot, sub_x, sub_y, add_x, add_y, muls_x, muls_y,
      div_x, div_y] at hD ⊢
    field_simp
    linear_combination (c2.r * c2.r) * hD
  · simp only [distance2, norm2, dot, sub_x, sub_y, add_x, add_y, muls_x, muls_y,
      div_x, div_y] at hD ⊢
    field_simp
    linear_combination (c1.r * c1.r) * hD

/-- The guard `dist2 <= eps` runs before the tangency test: the circles with centres `(0,0)`
and `(1/50000, 0)` and radii `1/100000` have squared centre distance exactly `(r1+r2)²`,
which is below `eps`, and the result is the empty sequence. -/
theorem external_tangent_below_eps :
    distance2 (⟨0, 0⟩ : Point ℝ) ⟨1 / 50000, 0⟩ = ((1 : ℝ) / 100000 + 1 / 100000) ^ 2
      ∧ intersectionCircleCircle Real.sqrt (⟨⟨0, 0⟩, 1 / 100000⟩ : Circle ℝ)
          ⟨⟨1 / 50000, 0⟩, 1 / 100000⟩ = [] := by
  constructor
  · norm_num [distance2, norm2, dot]
  · simp only [intersectionCircleCircle, distance2, norm2, dot, sub_x, sub_y]
    norm_num [eps]

/-- Algebra behind the two-point case: with a unit vector `v`, a unit vector `w` orthogonal
to it, `s² = 1 - k²` and `2·r1·d·k = r1² + d² - r2²`, the offset `r1·k·v + r1·s·w` has squared
length `r1²`, and shifted by `-d·v` it has squared length `r2²`. -/
theorem secant_algebra (vx vy wx wy r1 r2 d k s : ℝ)
    (hv : vx * vx + vy * vy = 1) (hw : wx * wx + wy * wy = 1) (hvw : vx * wx + vy * wy = 0)
    (hs : s * s = 1 - k * k) (hk : 2 * r1 * d * k = r1 * r1 + d * d - r2 * r2) :
    (k * (r1 * vx) + r1 * (s * wx)) * (k * (r1 * vx) + r1 * (s * wx))
        + (k * (r1 * vy) + r1 * (s * wy)) * (k * (r1 * vy) + r1 * (s * wy)) = r1 * r1
      ∧ (k * (r1 * vx) + r1 * (s * wx) - d * vx) * (k * (r1 * vx) + r1 * (s * wx) - d * vx)
        + (k * (r1 * vy) + r1 * (s * wy) - d * vy) * (k * (r1 * vy) + r1 * (s * wy) - d * vy)
          = r2 * r2 := by
  constructor
  · linear_combination (r1 * r1 * k * k) * hv + (r1 * r1 * s * s) * hw
      + (2 * r1 * r1 * k * s) * hvw + (r1 * r1) * hs
  · linear_combination (r1 * r1 * k * k - 2 * r1 * d * k + d * d) * hv + (r1 * r1 * s * s) * hw
      + (2 * r1 * r1 * k * s - 2 * d * r1 * s) * hvw + (r1 * r1) * hs - hk

/-- C2: in the proper (secant) case, with positive radii, `d² > eps`, `d²` more than `eps`
away from `(r1+r2)²` and from `(r1-r2)²` and strictly between `(r1-r2)²` and `(r1+r2)²`,
`intersection(c1, c2)` returns exactly two points, and each of them is at distance `r1`
from `c1.p` and at distance `r2` from `c2.p`. -/
theorem C2_secant_two_points_on_both (c1 c2 : Circle ℝ) (hr1 : 0 < c1.r) (hr2 : 0 < c2.r)
    (hd : eps < distance2 c1.p c2.p)
    (h1 : eps < |distance2 c1.p c2.p - (c1.r + c2.r) ^ 2|)
    (h2 : distance2 c1.p c2.p < (c1.r + c2.r) ^ 2)
    (h3 : eps < |distance2 c1.p c2.p - (c1.r - c2.r) ^ 2|)
    (h4 : (c1.r - c2.r) ^ 2 < distance2 c1.p c2.p) :
    ∃ P Q, intersectionCircleCircle Real.sqrt c1 c2 = [P, Q]
      ∧ distance Real.sqrt P c1.p = c1.r ∧ distance Real.sqrt P c2.p = c2.r
      ∧ distance Real.sqrt Q c1.p = c1.r ∧ distance Real.sqrt Q c2.p = c2.r := by
  simp only [pow_two] at h1 h2 h3 h4
  simp only [intersectionCircleCircle]
  rw [if_neg (not_le.mpr hd), if_neg (not_le.mpr h1), if_neg (not_lt.mpr h2.le),
    if_neg (not_le.mpr h3), if_neg (not_lt.mpr h4.le)]
  refine ⟨_, _, rfl, ?_⟩
  obtain ⟨⟨a, b⟩, r1⟩ := c1
  obtain ⟨⟨c, e⟩, r2⟩ := c2
  simp only at hr1 hr2 hd h1 h2 h3 h4 ⊢
  have hDpos : 0 < distance2 (⟨a, b⟩ : Point ℝ) ⟨c, e⟩ := lt_trans eps_real_pos hd
  have hDval : distance2 (⟨a, b⟩ : Point ℝ) ⟨c, e⟩ = (c - a) * (c - a) + (e - b) * (e - b) := by
    simp only [distance2, norm2, dot, sub_x, sub_y]; ring
  generalize distance2 (⟨a, b⟩ : Point ℝ) ⟨c, e⟩ = D at *
  have hd0 : 0 < √D := Real.sqrt_pos.mpr hDpos
  have hdd : √D * √D = D := Real.mul_self_sqrt hDpos.le
  generalize √D = d at *
  have hk : 2 * r1 * d * ((r1 * r1 + D - r2 * r2) / 2 / r1 / d) = r1 * r1 + d * d - r2 * r2 := by
    rw [hdd]; field_simp
  generalize (r1 * r1 + D - r2 * r2) / 2 / r1 / d = k at *
  have hlt1 : d < r1 + r2 := by
    apply lt_of_mul_self_lt_mul_self₀ (by linarith)
    rw [hdd]; exact h2
  have hlt2 : r1 - r2 < d := by
    apply lt_of_mul_self_lt_mul_self₀ hd0.le
    rw [hdd]; exact h4
  have hlt3 : r2 - r1 < d := by
    apply lt_of_mul_self_lt_mul_self₀ hd0.le
    rw [hdd]; linarith
  have hprod : (2 * r1 * d) * (2 * r1 * d) * (1 - k * k)
      = ((r2 + d - r1) * (r2 + r1 - d)) * ((r1 + d - r2) * (r1 + d + r2)) := by
    linear_combination (-(2 * r1 * d * k + (r1 * r1 + d * d - r2 * r2))) * hk
  have hk1 : 0 < 1 - k * k := by
    have hpos : 0 < (2 * r1 * d) * (2 * r1 * d) * (1 - k * k) := by
      rw [hprod]
      apply mul_pos <;> apply mul_pos <;> linarith
    have hc : 0 < (2 * r1 * d) * (2 * r1 * d) := by positivity
    exact (mul_pos_iff_of_pos_left hc).mp hpos
  have hs : √(1 - k * k) * √(1 - k * k) = 1 - k * k := Real.mul_self_sqrt hk1.le
  generalize √(1 - k * k) = s at *
  have hv : (c - a) / d * ((c - a) / d) + (e - b) / d * ((e - b) / d) = 1 := by
    field_simp; linarith
  have hx : d * ((c - a) / d) = c - a := by field_simp
  have hy : d * ((e - b) / d) = e - b := by field_simp
  have hP := secant_algebra ((c - a) / d) ((e - b) / d) ((e - b) / d) (-((c - a) / d))
    r1 r2 d k s hv (by linarith) (by ring) hs hk
  have hQ := secant_algebra ((c - a) / d) ((e - b) / d) (-((e - b) / d)) ((c - a) / d)
    r1 r2 d k s hv (by linarith) (by ring) hs hk
  rw [hx, hy] at hP hQ
  refine ⟨?_, ?_, ?_, ?_⟩ <;> apply distance_eq_of_distance2 _ _ _ (by linarith) <;>
    simp only [distance2, norm2, dot, sub_x, sub_y, add_x, add_y, muls_x, muls_y,
      div_x, div_y, rotate90, rotate270]
  · linear_combination hP.1
  · linear_combination hP.2
  · linear_combination hQ.1
  · linear_combination hQ.2

/-- C2 at the spec's example: centres `(0,0)` and `(1,0)`, both radii `2`. -/
theorem C2_secant_witness :
    ∃ P Q, intersectionCircleCircle Real.sqrt (⟨⟨0, 0⟩, 2⟩ : Circle ℝ) ⟨⟨1, 0⟩, 2⟩ = [P, Q]
      ∧ distance Real.sqrt P (⟨0, 0⟩ : Point ℝ) = 2 ∧ distance Real.sqrt P (⟨1, 0⟩ : Point ℝ) = 2
      ∧ distance Real.sqrt Q (⟨0, 0⟩ : Point ℝ) = 2
      ∧ distance Real.sqrt Q (⟨1, 0⟩ : Point ℝ) = 2 :=
  C2_secant_two_points_on_both (⟨⟨0, 0⟩, 2⟩ : Circle ℝ) ⟨⟨1, 0⟩, 2⟩
    (by norm_num) (by norm_num)
    (by norm_num [distance2, norm2, dot, eps])
    (by norm_num [distance2, norm2, dot, eps])
    (by norm_num [distance2, norm2, dot])
    (by norm_num [distance2, norm2, dot, eps])
    (by norm_num [distance2, norm2, dot])

/-- C3: in the internally tangent case (`r1 ≠ r2`, `d² = (r1-r2)²`, `d² > eps`,
`(r1+r2)² - d² > eps`, positive radii) `intersection(c1, c2)` returns exactly the one point
`c1.p + (c2.p - c1.p)·r1/(r1-r2)`, which is at distance `r1` from `c1.p` and at distance `r2`
from `c2.p`; nothing is assumed about which radius is the larger. -/
theorem C3_internal_tangent_point (c1 c2 : Circle ℝ) (hr1 : 0 < c1.r) (hr2 : 0 < c2.r)
    (hne : c1.r ≠ c2.r)
    (hD : distance2 c1.p c2.p = (c1.r - c2.r) ^ 2)
    (hd : eps < distance2 c1.p c2.p)
    (hsum : eps < (c1.r + c2.r) ^ 2 - distance2 c1.p c2.p) :
    intersectionCircleCircle Real.sqrt c1 c2 = [c1.p + (c2.p - c1.p) * c1.r / (c1.r - c2.r)]
      ∧ distance Real.sqrt (c1.p + (c2.p - c1.p) * c1.r / (c1.r - c2.r)) c1.p = c1.r
      ∧ distance Real.sqrt (c1.p + (c2.p - c1.p) * c1.r / (c1.r - c2.r)) c2.p = c2.r := by
  have he := eps_real_pos
  simp only [pow_two] at hD hsum
  have h1 : ¬ |distance2 c1.p c2.p - (c1.r + c2.r) * (c1.r + c2.r)| ≤ eps := by
    rw [abs_sub_comm, abs_of_pos (by linarith)]
    exact not_le.mpr hsum
  have h2 : ¬ distance2 c1.p c2.p > (c1.r + c2.r) * (c1.r + c2.r) := by
    intro h; linarith
  have h3 : |distance2 c1.p c2.p - (c1.r - c2.r) * (c1.r - c2.r)| ≤ eps := by
    rw [hD, sub_self, abs_zero]; exact he.le
  have hsub : c1.r - c2.r ≠ 0 := sub_ne_zero.mpr hne
  refine ⟨?_, ?_, ?_⟩
  · simp only [intersectionCircleCircle]
    rw [if_neg (not_le.mpr hd), if_neg h1, if_neg h2, if_pos h3]
  · apply distance_eq_of_distance2 _ _ _ hr1.le
    simp only [distance2, norm2, dot, sub_x, sub_y, add_x, add_y, muls_x, muls_y,
      div_x, div_y] at hD ⊢
    field_simp
    linear_combination (c1.r * c1.r) * hD
  · apply distance_eq_of_distance2 _ _ _ hr2.le
    simp only [distance2, norm2, dot, sub_x, sub_y, add_x, add_y, muls_x, muls_y,
      div_x, div_y] at hD ⊢
    field_simp
    linear_combination (c2.r * c2.r) * hD

/-- C3 at a pair whose first circle is the smaller one: centres `(2,0)`, `(0,0)` and
radii `1`, `3`. -/
theorem C3_internal_tangent_witness :
    intersectionCircleCircle Real.sqrt (⟨⟨2, 0⟩, 1⟩ : Circle ℝ) ⟨⟨0, 0⟩, 3⟩
        = [(⟨2, 0⟩ : Point ℝ) + ((⟨0, 0⟩ : Point ℝ) - ⟨2, 0⟩) * (1 : ℝ) / ((1 : ℝ) - 3)]
      ∧ distance Real.sqrt
          ((⟨2, 0⟩ : Point ℝ) + ((⟨0, 0⟩ : Point ℝ) - ⟨2, 0⟩) * (1 : ℝ) / ((1 : ℝ) - 3))
          (⟨2, 0⟩ : Point ℝ) = 1
      ∧ distance Real.sqrt
          ((⟨2, 0⟩ : Point ℝ) + ((⟨0, 0⟩ : Point ℝ) - ⟨2, 0⟩) * (1 : ℝ) / ((1 : ℝ) - 3))
          (⟨0, 0⟩ : Point ℝ) = 3 :=
  C3_internal_tangent_point (⟨⟨2, 0⟩, 1⟩ : Circle ℝ) ⟨⟨0, 0⟩, 3⟩
    (by norm_num) (by norm_num) (by norm_num)
    (by norm_num [distance2, norm2, dot])
    (by norm_num [distance2, norm2, dot, eps])
    (by norm_num [distance2, norm2, dot, eps])

/-- C4 as stated fails: `intersection(Circle((0,0),3), Circle((1,0),1))` is not the
one-point sequence `[(3,0)]`; it is the empty sequence. -/
theorem C4_counterexample :
    intersectionCircleCircle Real.sqrt (⟨⟨0, 0⟩, 3⟩ : Circle ℝ) ⟨⟨1, 0⟩, 1⟩ = []
      ∧ intersectionCircleCircle Real.sqrt (⟨⟨0, 0⟩, 3⟩ : Circle ℝ) ⟨⟨1, 0⟩, 1⟩
          ≠ [(⟨3, 0⟩ : Point ℝ)] := by
  have h : intersectionCircleCircle Real.sqrt (⟨⟨0, 0⟩, 3⟩ : Circle ℝ) ⟨⟨1, 0⟩, 1⟩ = [] := by
    simp only [intersectionCircleCircle, distance2, norm2, dot, sub_x, sub_y]
    norm_num [eps]
  exact ⟨h, by rw [h]; simp⟩

/-- C4 amended: for the circles `((0,0),3)` and `((1,0),1)` the squared centre distance `1`
is more than `eps` away from `(r1+r2)² = 16` and from `(r1-r2)² = 4` and is smaller than
`(r1-r2)²`, so the pair is classified as disjoint-contained and the result is empty; the
internally tangent pair `((0,0),3)`, `((2,0),1)` returns exactly the one point `(3,0)`. -/
theorem C4_contained_empty_and_tangent_point :
    intersectionCircleCircle Real.sqrt (⟨⟨0, 0⟩, 3⟩ : Circle ℝ) ⟨⟨1, 0⟩, 1⟩ = []
      ∧ eps < |distance2 (⟨0, 0⟩ : Point ℝ) ⟨1, 0⟩ - ((3 : ℝ) + 1) * (3 + 1)|
      ∧ eps < |distance2 (⟨0, 0⟩ : Point ℝ) ⟨1, 0⟩ - ((3 : ℝ) - 1) * (3 - 1)|
      ∧ distance2 (⟨0, 0⟩ : Point ℝ) ⟨1, 0⟩ < ((3 : ℝ) - 1) * (3 - 1)
      ∧ intersectionCircleCircle Real.sqrt (⟨⟨0, 0⟩, 3⟩ : Circle ℝ) ⟨⟨2, 0⟩, 1⟩
          = [(⟨3, 0⟩ : Point ℝ)] := by
  refine ⟨?_, ?_, ?_, ?_, ?_⟩
  · simp only [intersectionCircleCircle, distance2, norm2, dot, sub_x, sub_y]
    norm_num [eps]
  · norm_num [distance2, norm2, dot, eps]
  · norm_num [distance2, norm2, dot, eps]
  · norm_num [distance2, norm2, dot]
  · simp only [intersectionCircleCircle, distance2, norm2, dot, sub_x, sub_y]
    norm_num [eps]
    ext <;> simp

/-! ## Line-line intersection -/

/-- The determinant computed by `intersection(Line, Line)` is the cross product of the two
direction vectors. -/
theorem det_eq_cross (l1 l2 : Line ℝ) :
    l1.toABC.1 * l2.toABC.2.1 - l2.toABC.1 * l1.toABC.2.1
      = cross (l1.p2 - l1.p1) (l2.p2 - l2.p1) := by
  simp only [Line.toABC, cross, sub_x, sub_y]
  ring

/-- C5: with `(A1,B1,C1)` and `(A2,B2,C2)` the implicit forms from `toABC` and
`det = A1·B2 - A2·B1`, if `|det| > eps` then `intersection(l1, l2)` returns exactly the one
point `P = ((C2·B1 - C1·B2)/det, (A2·C1 - A1·C2)/det)`, and `P` satisfies both line
equations `A1·P.x + B1·P.y + C1 = 0` and `A2·P.x + B2·P.y + C2 = 0`. -/
theorem C5_line_line_point (l1 l2 : Line ℝ) (A1 B1 C1 A2 B2 C2 : ℝ)
    (hl1 : l1.toABC = (A1, B1, C1)) (hl2 : l2.toABC = (A2, B2, C2))
    (hdet : eps < |A1 * B2 - A2 * B1|) :
    intersectionLineLine l1 l2
        = [⟨(C2 * B1 - C1 * B2) / (A1 * B2 - A2 * B1), (A2 * C1 - A1 * C2) / (A1 * B2 - A2 * B1)⟩]
      ∧ A1 * ((C2 * B1 - C1 * B2) / (A1 * B2 - A2 * B1))
          + B1 * ((A2 * C1 - A1 * C2) / (A1 * B2 - A2 * B1)) + C1 = 0
      ∧ A2 * ((C2 * B1 - C1 * B2) / (A1 * B2 - A2 * B1))
          + B2 * ((A2 * C1 - A1 * C2) / (A1 * B2 - A2 * B1)) + C2 = 0 := by
  have hne : A1 * B2 - A2 * B1 ≠ 0 := by
    intro h0
    rw [h0, abs_zero] at hdet
    exact absurd hdet (not_lt.mpr eps_real_pos.le)
  refine ⟨?_, ?_, ?_⟩
  · simp only [intersectionLineLine, hl1, hl2]
    rw [if_neg (not_le.mpr hdet)]
    rfl
  · field_simp
    ring
  · field_simp
    ring

/-- C5 at the lines through `(0,0)-(1,1)` and `(0,1)-(1,0)`, which meet in `(1/2, 1/2)`. -/
theorem C5_line_line_witness :
    (((-1 : ℝ) * 1 - 0 * 1) / (-1 * 1 - 1 * 1) = 1 / 2
        ∧ ((1 : ℝ) * 0 - -1 * -1) / (-1 * 1 - 1 * 1) = 1 / 2)
      ∧ intersectionLineLine (⟨⟨0, 0⟩, ⟨1, 1⟩⟩ : Line ℝ) ⟨⟨0, 1⟩, ⟨1, 0⟩⟩
        = [⟨((-1 : ℝ) * 1 - 0 * 1) / (-1 * 1 - 1 * 1), ((1 : ℝ) * 0 - -1 * -1) / (-1 * 1 - 1 * 1)⟩]
      ∧ (-1 : ℝ) * (((-1 : ℝ) * 1 - 0 * 1) / (-1 * 1 - 1 * 1))
          + 1 * (((1 : ℝ) * 0 - -1 * -1) / (-1 * 1 - 1 * 1)) + 0 = 0
      ∧ (1 : ℝ) * (((-1 : ℝ) * 1 - 0 * 1) / (-1 * 1 - 1 * 1))
          + 1 * (((1 : ℝ) * 0 - -1 * -1) / (-1 * 1 - 1 * 1)) + -1 = 0 :=
  ⟨by norm_num,
    C5_line_line_point (⟨⟨0, 0⟩, ⟨1, 1⟩⟩ : Line ℝ) ⟨⟨0, 1⟩, ⟨1, 0⟩⟩ (-1) 1 0 1 1 (-1)
      (by norm_num [Line.toABC, cross]) (by norm_num [Line.toABC, cross])
      (by norm_num [eps])⟩

/-- C6: `intersection(l1, l2)` is the empty sequence whenever the cross product of the two
direction vectors `l1.p2 - l1.p1` and `l2.p2 - l2.p1` is zero (parallel or coincident lines,
and lines with `p1 = p2`). -/
theorem C6_parallel_empty (l1 l2 : Line ℝ)
    (h : cross (l1.p2 - l1.p1) (l2.p2 - l2.p1) = 0) :
    intersectionLineLine l1 l2 = [] := by
  have hdet := det_eq_cross l1 l2
  rw [h] at hdet
  simp only [intersectionLineLine]
  rw [hdet, abs_zero, if_pos eps_real_pos.le]

/-- C6 at the spec's example: the parallel lines through `(0,0)-(1,0)` and `(0,1)-(1,1)`. -/
theorem C6_parallel_witness :
    cross ((⟨1, 0⟩ : Point ℝ) - ⟨0, 0⟩) ((⟨1, 1⟩ : Point ℝ) - ⟨0, 1⟩) = 0
      ∧ intersectionLineLine (⟨⟨0, 0⟩, ⟨1, 0⟩⟩ : Line ℝ) ⟨⟨0, 1⟩, ⟨1, 1⟩⟩ = [] :=
  ⟨by norm_num [cross],
    C6_parallel_empty (⟨⟨0, 0⟩, ⟨1, 0⟩⟩ : Line ℝ) ⟨⟨0, 1⟩, ⟨1, 1⟩⟩ (by norm_num [cross])⟩

/-- C7 as stated fails: the lines through `(0,0)-(1,0)` and `(0,0)-(0,10⁻⁸)` are both
non-degenerate and perpendicular (the cross product of their directions is `10⁻⁸ ≠ 0`), yet
`intersection` returns the empty sequence, not one point. -/
theorem C7_counterexample :
    (⟨0, 0⟩ : Point ℝ) ≠ ⟨1, 0⟩
      ∧ (⟨0, 0⟩ : Point ℝ) ≠ ⟨0, 1 / 100000000⟩
      ∧ cross ((⟨1, 0⟩ : Point ℝ) - ⟨0, 0⟩) ((⟨0, 1 / 100000000⟩ : Point ℝ) - ⟨0, 0⟩) ≠ 0
      ∧ intersectionLineLine (⟨⟨0, 0⟩, ⟨1, 0⟩⟩ : Line ℝ) ⟨⟨0, 0⟩, ⟨0, 1 / 100000000⟩⟩ = []
      ∧ ¬ ∃ P, intersectionLineLine (⟨⟨0, 0⟩, ⟨1, 0⟩⟩ : Line ℝ) ⟨⟨0, 0⟩, ⟨0, 1 / 100000000⟩⟩
          = [P] := by
  have h : intersectionLineLine (⟨⟨0, 0⟩, ⟨1, 0⟩⟩ : Line ℝ) ⟨⟨0, 0⟩, ⟨0, 1 / 100000000⟩⟩
      = [] := by
    simp only [intersectionLineLine, Line.toABC, cross]
    norm_num [eps]
    exact (abs_of_pos (by norm_num)).le
  refine ⟨?_, ?_, ?_, h, ?_⟩
  · intro h0
    have := congrArg Point.x h0
    norm_num at this
  · intro h0
    have := congrArg Point.y h0
    norm_num at this
  · norm_num [cross]
  · rw [h]; simp

/-- C7 amended: `intersection(l1, l2)` returns exactly one point if and only if the cross
product of the direction vectors exceeds `eps` in absolute value, and returns the empty
sequence if and only if that absolute value is at most `eps`. -/
theorem C7_one_point_iff_cross_gt_eps (l1 l2 : Line ℝ) :
    ((∃ P, intersectionLineLine l1 l2 = [P])
        ↔ eps < |cross (l1.p2 - l1.p1) (l2.p2 - l2.p1)|)
      ∧ (intersectionLineLine l1 l2 = []
        ↔ |cross (l1.p2 - l1.p1) (l2.p2 - l2.p1)| ≤ eps) := by
  have hdet := det_eq_cross l1 l2
  by_cases hc : |cross (l1.p2 - l1.p1) (l2.p2 - l2.p1)| ≤ eps
  · have h : intersectionLineLine l1 l2 = [] := by
      simp only [intersectionLineLine]
      rw [hdet, if_pos hc]
    rw [h]
    simp [hc]
  · have h : ∃ P, intersectionLineLine l1 l2 = [P] := by
      simp only [intersectionLineLine]
      rw [hdet, if_neg hc]
      exact ⟨_, rfl⟩
    obtain ⟨P, hP⟩ := h
    rw [hP]
    simp [hc, not_le.mp hc]

/-! ## Circle-line intersection -/

/-- The direction of a non-degenerate line has positive squared length. -/
theorem norm2_dir_pos (l : Line ℝ) (hl : l.p1 ≠ l.p2) : 0 < norm2 (l.p2 - l.p1) := by
  simp only [norm2, dot, sub_x, sub_y]
  have h0 : 0 ≤ (l.p2.x - l.p1.x) * (l.p2.x - l.p1.x) := mul_self_nonneg _
  have h1 : 0 ≤ (l.p2.y - l.p1.y) * (l.p2.y - l.p1.y) := mul_self_nonneg _
  rcases lt_or_eq_of_le (add_nonneg h0 h1) with h | h
  · exact h
  · exfalso
    apply hl
    have hx : (l.p2.x - l.p1.x) * (l.p2.x - l.p1.x) = 0 := by linarith
    have hy : (l.p2.y - l.p1.y) * (l.p2.y - l.p1.y) = 0 := by linarith
    have hx0 := mul_self_eq_zero.mp hx
    have hy0 := mul_self_eq_zero.mp hy
    ext
    · linarith
    · linarith

/-- C8: in the secant case (non-degenerate line, squared foot distance below `c.r²` and
more than `eps` away from it) `intersection(c, l)` returns exactly two points `[P, Q]`; both
lie on the line, both lie on the circle, and `P - Q` is a positive multiple of
`l.p2 - l.p1`. -/
theorem C8_circle_line_secant (c : Circle ℝ) (l : Line ℝ) (hl : l.p1 ≠ l.p2)
    (hlt : distance2 (footPoint Real.sqrt c l) c.p < c.r ^ 2)
    (heps : eps < |distance2 (footPoint Real.sqrt c l) c.p - c.r ^ 2|) :
    ∃ P Q, intersectionCircleLine Real.sqrt c l = [P, Q]
      ∧ cross (l.p2 - l.p1) (P - l.p1) = 0 ∧ cross (l.p2 - l.p1) (Q - l.p1) = 0
      ∧ distance2 P c.p = c.r ^ 2 ∧ distance2 Q c.p = c.r ^ 2
      ∧ ∃ t : ℝ, 0 < t ∧ P - Q = t * (l.p2 - l.p1) := by
  have hN := norm2_dir_pos l hl
  simp only [pow_two, footPoint] at hlt heps
  simp only [intersectionCircleLine, pow_two]
  rw [if_neg (not_le.mpr heps), if_neg (not_lt.mpr hlt.le)]
  refine ⟨_, _, rfl, ?_⟩
  have hlen : 0 < c.r * c.r - distance2
      (l.p1 + normalise Real.sqrt (l.p2 - l.p1) * dot (normalise Real.sqrt (l.p2 - l.p1))
        (c.p - l.p1)) c.p := by linarith
  have hss := Real.mul_self_sqrt hlen.le
  have hs0 := Real.sqrt_pos.mpr hlen
  generalize √(c.r * c.r - distance2
      (l.p1 + normalise Real.sqrt (l.p2 - l.p1) * dot (normalise Real.sqrt (l.p2 - l.p1))
        (c.p - l.p1)) c.p) = len at *
  clear hlt heps hlen
  obtain ⟨⟨a, b⟩, r⟩ := c
  obtain ⟨⟨x1, y1⟩, ⟨x2, y2⟩⟩ := l
  simp only [normalise, norm] at hss ⊢
  have hn0 := Real.sqrt_pos.mpr hN
  have hnn := Real.mul_self_sqrt hN.le
  generalize √(norm2 ((⟨x2, y2⟩ : Point ℝ) - ⟨x1, y1⟩)) = n at *
  simp only [norm2, dot, sub_x, sub_y] at hnn
  obtain ⟨vx, rfl⟩ : ∃ vx, x2 = x1 + n * vx := ⟨(x2 - x1) / n, by field_simp⟩
  obtain ⟨vy, rfl⟩ : ∃ vy, y2 = y1 + n * vy := ⟨(y2 - y1) / n, by field_simp⟩
  have hv : vx * vx + vy * vy = 1 := by
    have h2 : n * n * (vx * vx + vy * vy) = n * n * 1 := by linear_combination -hnn
    exact mul_left_cancel₀ (mul_pos hn0 hn0).ne.symm h2
  have ex : (x1 + n * vx - x1) / n = vx := by field_simp
  have ey : (y1 + n * vy - y1) / n = vy := by field_simp
  simp only [distance2, norm2, dot, cross, sub_x, sub_y, add_x, add_y, muls_x, muls_y,
    div_x, div_y, rotate180, ex, ey] at hss ⊢
  refine ⟨by ring, by ring, ?_, ?_, 2 * len / n, by positivity, ?_⟩
  · linear_combination hss
      + (2 * len * (vx * (a - x1) + vy * (b - y1)) + len * len) * hv
  · linear_combination hss
      + (-(2 * len * (vx * (a - x1) + vy * (b - y1))) + len * len) * hv
  · ext
    · simp only [sub_x, add_x, muls_x, div_x, smul_x, ex]
      field_simp
      ring
    · simp only [sub_y, add_y, muls_y, div_y, smul_y, ey]
      field_simp
      ring

/-- The length of the direction `(4,0)` used in the examples below. -/
theorem sqrt_sixteen : Real.sqrt 16 = 4 := by
  rw [show (16 : ℝ) = 4 * 4 by norm_num, Real.sqrt_mul_self (by norm_num)]

/-- C8 at the spec's example: centre `(0,0)`, radius `1`, line through `(-2,0)-(2,0)`; the
result is `[(1,0), (-1,0)]`. -/
theorem C8_circle_line_witness :
    intersectionCircleLine Real.sqrt (⟨⟨0, 0⟩, 1⟩ : Circle ℝ) ⟨⟨-2, 0⟩, ⟨2, 0⟩⟩
        = [⟨1, 0⟩, ⟨-1, 0⟩]
      ∧ ∃ P Q, intersectionCircleLine Real.sqrt (⟨⟨0, 0⟩, 1⟩ : Circle ℝ) ⟨⟨-2, 0⟩, ⟨2, 0⟩⟩
          = [P, Q]
        ∧ cross ((⟨2, 0⟩ : Point ℝ) - ⟨-2, 0⟩) (P - ⟨-2, 0⟩) = 0
        ∧ cross ((⟨2, 0⟩ : Point ℝ) - ⟨-2, 0⟩) (Q - ⟨-2, 0⟩) = 0
        ∧ distance2 P ⟨0, 0⟩ = (1 : ℝ) ^ 2 ∧ distance2 Q ⟨0, 0⟩ = (1 : ℝ) ^ 2
        ∧ ∃ t : ℝ, 0 < t ∧ P - Q = t * ((⟨2, 0⟩ : Point ℝ) - ⟨-2, 0⟩) := by
  refine ⟨?_, C8_circle_line_secant (⟨⟨0, 0⟩, 1⟩ : Circle ℝ) ⟨⟨-2, 0⟩, ⟨2, 0⟩⟩ ?_ ?_ ?_⟩
  · simp only [intersectionCircleLine, normalise, norm, norm2, dot, distance2, rotate180,
      sub_x, sub_y, add_x, add_y, muls_x, muls_y, div_x, div_y]
    norm_num [eps, sqrt_sixteen]
    constructor <;> ext <;> simp <;> norm_num [sqrt_sixteen]
  · intro h
    have := congrArg Point.x h
    norm_num at this
  · simp only [footPoint, normalise, norm, norm2, dot, distance2,
      sub_x, sub_y, add_x, add_y, muls_x, muls_y, div_x, div_y]
    norm_num [sqrt_sixteen]
  · simp only [footPoint, normalise, norm, norm2, dot, distance2,
      sub_x, sub_y, add_x, add_y, muls_x, muls_y, div_x, div_y]
    norm_num [eps, sqrt_sixteen]

/-- C9: for a non-degenerate line, with `o` the foot point computed by the code: if the
squared distance from `c.p` to `o` is within `eps` of `c.r²` then `intersection(c, l)`
returns exactly `[o]`; `o` lies on `l` and `c.p - o` is orthogonal to `l.p2 - l.p1`; and if
the squared distance exceeds `c.r²` by more than `eps` the result is empty. -/
theorem C9_circle_line_tangent_or_empty (c : Circle ℝ) (l : Line ℝ) (hl : l.p1 ≠ l.p2) :
    (|distance2 (footPoint Real.sqrt c l) c.p - c.r ^ 2| ≤ eps
        → intersectionCircleLine Real.sqrt c l = [footPoint Real.sqrt c l])
      ∧ cross (l.p2 - l.p1) (footPoint Real.sqrt c l - l.p1) = 0
      ∧ dot (c.p - footPoint Real.sqrt c l) (l.p2 - l.p1) = 0
      ∧ (eps < distance2 (footPoint Real.sqrt c l) c.p - c.r ^ 2
        → intersectionCircleLine Real.sqrt c l = []) := by
  have hN := norm2_dir_pos l hl
  refine ⟨?_, ?_, ?_, ?_⟩
  · intro h
    simp only [pow_two, footPoint] at h
    simp only [intersectionCircleLine, footPoint]
    rw [if_pos h]
  · simp only [footPoint, normalise, cross, sub_x, sub_y, add_x, add_y, muls_x, muls_y,
      div_x, div_y]
    ring
  · have hn0 := Real.sqrt_pos.mpr hN
    have hnn := Real.mul_self_sqrt hN.le
    simp only [footPoint, normalise, norm, dot, sub_x, sub_y, add_x, add_y, muls_x, muls_y,
      div_x, div_y]
    generalize √(norm2 (l.p2 - l.p1)) = n at *
    simp only [norm2, dot, sub_x, sub_y] at hnn
    field_simp
    linear_combination
      (((l.p2.x - l.p1.x) * (c.p.x - l.p1.x) + (l.p2.y - l.p1.y) * (c.p.y - l.p1.y))) * hnn
  · intro h
    have he := eps_real_pos
    simp only [pow_two, footPoint] at h
    simp only [intersectionCircleLine]
    rw [if_neg, if_pos]
    · linarith
    · rw [abs_of_pos (by linarith)]
      exact not_le.mpr h

/-- C9 at concrete inputs on the line through `(-2,0)-(2,0)`: the circle with centre `(0,1)`
and radius `1` is tangent and yields exactly its foot point `(0,0)`; the circle with centre
`(0,2)` and radius `1` yields the empty sequence. -/
theorem C9_circle_line_witness :
    intersectionCircleLine Real.sqrt (⟨⟨0, 1⟩, 1⟩ : Circle ℝ) ⟨⟨-2, 0⟩, ⟨2, 0⟩⟩
        = [footPoint Real.sqrt (⟨⟨0, 1⟩, 1⟩ : Circle ℝ) ⟨⟨-2, 0⟩, ⟨2, 0⟩⟩]
      ∧ footPoint Real.sqrt (⟨⟨0, 1⟩, 1⟩ : Circle ℝ) ⟨⟨-2, 0⟩, ⟨2, 0⟩⟩ = ⟨0, 0⟩
      ∧ intersectionCircleLine Real.sqrt (⟨⟨0, 2⟩, 1⟩ : Circle ℝ) ⟨⟨-2, 0⟩, ⟨2, 0⟩⟩ = [] := by
  have hne : (⟨-2, 0⟩ : Point ℝ) ≠ ⟨2, 0⟩ := by
    intro h
    have := congrArg Point.x h
    norm_num at this
  refine ⟨?_, ?_, ?_⟩
  · apply (C9_circle_line_tangent_or_empty (⟨⟨0, 1⟩, 1⟩ : Circle ℝ) ⟨⟨-2, 0⟩, ⟨2, 0⟩⟩ hne).1
    simp only [footPoint, normalise, norm, norm2, dot, distance2,
      sub_x, sub_y, add_x, add_y, muls_x, muls_y, div_x, div_y]
    norm_num [eps, sqrt_sixteen]
  · ext <;>
      simp only [footPoint, normalise, norm, norm2, dot,
        sub_x, sub_y, add_x, add_y, muls_x, muls_y, div_x, div_y] <;>
      norm_num [sqrt_sixteen]
  · apply (C9_circle_line_tangent_or_empty (⟨⟨0, 2⟩, 1⟩ : Circle ℝ) ⟨⟨-2, 0⟩, ⟨2, 0⟩⟩ hne).2.2.2
    simp only [footPoint, normalise, norm, norm2, dot, distance2,
      sub_x, sub_y, add_x, add_y, muls_x, muls_y, div_x, div_y]
    norm_num [eps, sqrt_sixteen]

/-! ## Perpendicular bisector -/

/-- C10: the line `l = equidistantLine(p1, p2)` has `l.p1` equal to the midpoint
`(p1 + p2)/2`, its direction `l.p2 - l.p1` has zero dot product with `p2 - p1`, every
point `l.p1 + t·(l.p2 - l.p1)` has the same squared distance to `p1` and to `p2`, and `l` is
non-degenerate whenever `p1 ≠ p2`. -/
theorem C10_equidistantLine_bisector (p1 p2 : Point ℝ) :
    (equidistantLine p1 p2).p1 = (p1 + p2) / (2 : ℝ)
      ∧ dot ((equidistantLine p1 p2).p2 - (equidistantLine p1 p2).p1) (p2 - p1) = 0
      ∧ (∀ t : ℝ,
          distance2 ((equidistantLine p1 p2).p1
              + t * ((equidistantLine p1 p2).p2 - (equidistantLine p1 p2).p1)) p1
            = distance2 ((equidistantLine p1 p2).p1
              + t * ((equidistantLine p1 p2).p2 - (equidistantLine p1 p2).p1)) p2)
      ∧ (p1 ≠ p2 → (equidistantLine p1 p2).p1 ≠ (equidistantLine p1 p2).p2) := by
  refine ⟨rfl, ?_, ?_, ?_⟩
  · simp only [equidistantLine, dot, rotate90, sub_x, sub_y, add_x, add_y, div_x, div_y]
    ring
  · intro t
    simp only [equidistantLine, distance2, norm2, dot, rotate90, sub_x, sub_y, add_x, add_y,
      div_x, div_y, smul_x, smul_y]
    ring
  · intro hne heq
    apply hne
    have hx := congrArg Point.x heq
    have hy := congrArg Point.y heq
    simp only [equidistantLine, rotate90, sub_x, sub_y, add_x, add_y, div_x, div_y] at hx hy
    ext
    · linarith
    · linarith

/-- C10 at the spec's example: `equidistantLine((0,0),(2,0))` starts at `(1,0)`, is
perpendicular to the segment, and is non-degenerate. -/
theorem C10_equidistantLine_witness :
    (equidistantLine (⟨0, 0⟩ : Point ℝ) ⟨2, 0⟩).p1 = ⟨1, 0⟩
      ∧ dot ((equidistantLine (⟨0, 0⟩ : Point ℝ) ⟨2, 0⟩).p2
          - (equidistantLine (⟨0, 0⟩ : Point ℝ) ⟨2, 0⟩).p1) ((⟨2, 0⟩ : Point ℝ) - ⟨0, 0⟩) = 0
      ∧ (equidistantLine (⟨0, 0⟩ : Point ℝ) ⟨2, 0⟩).p1
          ≠ (equidistantLine (⟨0, 0⟩ : Point ℝ) ⟨2, 0⟩).p2 := by
  have h := C10_equidistantLine_bisector (⟨0, 0⟩ : Point ℝ) ⟨2, 0⟩
  refine ⟨?_, h.2.1, h.2.2.2 ?_⟩
  · rw [h.1]
    ext <;> simp
  · intro h0
    have := congrArg Point.x h0
    norm_num at this

/-! ## Rotations -/

/-- C13: for every point `p`, `rotate90(rotate90(p))` equals `rotate180(p)`. -/
theorem C13_rotate90_twice {T : Type} [LinearOrderedField T] (p : Point T) :
    rotate90 (rotate90 p) = rotate180 p := by
  simp only [rotate90, rotate180]

/-- C14 as stated fails: for `p = (1,0)`, `rotate180(p)` is `(-1,0)` while
`rotate90(rotate270(p))` is `(1,0)`. -/
theorem C14_counterexample :
    rotate180 (⟨1, 0⟩ : Point ℝ) = ⟨-1, -0⟩
      ∧ rotate90 (rotate270 (⟨1, 0⟩ : Point ℝ)) = ⟨1, - -0⟩
      ∧ rotate180 (⟨1, 0⟩ : Point ℝ) ≠ rotate90 (rotate270 (⟨1, 0⟩ : Point ℝ)) := by
  refine ⟨rfl, rfl, ?_⟩
  intro h
  have hx := congrArg Point.x h
  simp only [rotate90, rotate180, rotate270] at hx
  norm_num at hx

/-- C14 amended: for every point `p`, `rotate90(rotate270(p))` is `p` itself, and
`rotate180(p)` equals it exactly when `p` is the origin. -/
theorem C14_rotate90_rotate270 (p : Point ℝ) :
    rotate90 (rotate270 p) = p
      ∧ (rotate180 p = rotate90 (rotate270 p) ↔ p = ⟨0, 0⟩) := by
  have h : rotate90 (rotate270 p) = p := by
    ext <;> simp [rotate90, rotate270]
  refine ⟨h, ?_⟩
  rw [h]
  constructor
  · intro h2
    have hx := congrArg Point.x h2
    have hy := congrArg Point.y h2
    simp only [rotate180] at hx hy
    ext
    · show p.x = 0
      linarith
    · show p.y = 0
      linarith
  · intro h2
    rw [h2]
    ext <;> simp [rotate180]

/-! ## Implicit form and point-line distance -/

/-- The implicit form evaluated at a point is the cross product of the line direction with
the offset of the point from `l.p1`. -/
theorem toABC_eval (l : Line ℝ) (P : Point ℝ) :
    l.toABC.1 * P.x + l.toABC.2.1 * P.y + l.toABC.2.2 = cross (l.p2 - l.p1) (P - l.p1) := by
  simp only [Line.toABC, cross, sub_x, sub_y]
  ring

/-- On a non-degenerate line, a point has zero cross product with the direction exactly when
it is `l.p1 + t·(l.p2 - l.p1)` for some real `t`. -/
theorem cross_eq_zero_iff_param (l : Line ℝ) (hl : l.p1 ≠ l.p2) (P : Point ℝ) :
    cross (l.p2 - l.p1) (P - l.p1) = 0 ↔ ∃ t : ℝ, P = l.p1 + t * (l.p2 - l.p1) := by
  have hN := norm2_dir_pos l hl
  simp only [norm2, dot, sub_x, sub_y] at hN
  constructor
  · intro h
    simp only [cross, sub_x, sub_y] at h
    refine ⟨((P.x - l.p1.x) * (l.p2.x - l.p1.x) + (P.y - l.p1.y) * (l.p2.y - l.p1.y))
      / ((l.p2.x - l.p1.x) * (l.p2.x - l.p1.x) + (l.p2.y - l.p1.y) * (l.p2.y - l.p1.y)), ?_⟩
    ext
    · simp only [add_x, smul_x, sub_x]
      field_simp
      linear_combination (-(l.p2.y - l.p1.y)) * h
    · simp only [add_y, smul_y, sub_y]
      field_simp
      linear_combination (l.p2.x - l.p1.x) * h
  · rintro ⟨t, rfl⟩
    simp only [cross, sub_x, sub_y, add_x, add_y, smul_x, smul_y]
    ring

/-- C15: with `(A, B, C) = toABC(l)`, every point `l.p1 + t·(l.p2 - l.p1)` satisfies
`A·x + B·y + C = 0`; and when `l.p1 ≠ l.p2`, every point satisfying `A·x + B·y + C = 0` is
`l.p1 + t·(l.p2 - l.p1)` for some real `t`. -/
theorem C15_toABC_implicit_form (l : Line ℝ) (A B C : ℝ) (h : l.toABC = (A, B, C)) :
    (∀ t : ℝ, A * (l.p1 + t * (l.p2 - l.p1)).x + B * (l.p1 + t * (l.p2 - l.p1)).y + C = 0)
      ∧ (l.p1 ≠ l.p2 →
          ∀ P : Point ℝ, A * P.x + B * P.y + C = 0 → ∃ t : ℝ, P = l.p1 + t * (l.p2 - l.p1)) := by
  have hA : l.toABC.1 = A := by rw [h]
  have hB : l.toABC.2.1 = B := by rw [h]
  have hC : l.toABC.2.2 = C := by rw [h]
  constructor
  · intro t
    have := toABC_eval l (l.p1 + t * (l.p2 - l.p1))
    rw [hA, hB, hC] at this
    rw [this]
    simp only [cross, sub_x, sub_y, add_x, add_y, smul_x, smul_y]
    ring
  · intro hl P hP
    have := toABC_eval l P
    rw [hA, hB, hC, hP] at this
    exact (cross_eq_zero_iff_param l hl P).mp this.symm

/-- C15 at the line through `(0,0)-(1,1)`, whose implicit form is `(-1, 1, 0)`: the point
with parameter `3` satisfies the equation, and `(2,2)`, which satisfies it, is on the
line. -/
theorem C15_toABC_witness :
    (-1 : ℝ) * ((⟨0, 0⟩ : Point ℝ) + (3 : ℝ) * ((⟨1, 1⟩ : Point ℝ) - (⟨0, 0⟩ : Point ℝ))).x
        + 1 * ((⟨0, 0⟩ : Point ℝ) + (3 : ℝ) * ((⟨1, 1⟩ : Point ℝ) - (⟨0, 0⟩ : Point ℝ))).y + 0 = 0
      ∧ ∃ t : ℝ, (⟨2, 2⟩ : Point ℝ) = (⟨0, 0⟩ : Point ℝ) + t * ((⟨1, 1⟩ : Point ℝ) - (⟨0, 0⟩ : Point ℝ)) := by
  have h := C15_toABC_implicit_form (⟨⟨0, 0⟩, ⟨1, 1⟩⟩ : Line ℝ) (-1) 1 0
    (by norm_num [Line.toABC, cross])
  refine ⟨h.1 3, h.2 ?_ (⟨2, 2⟩ : Point ℝ) (by norm_num)⟩
  intro h0
  have := congrArg Point.x h0
  norm_num at this

/-- C16: for a non-degenerate line with `(A, B, C) = toABC(l)` and every point `p`,
`distance(p, l) · norm(l.p2 - l.p1) = |A·p.x + B·p.y + C|`; the distance is not negative, it
is zero exactly when `A·p.x + B·p.y + C = 0`, equivalently when `p` is
`l.p1 + t·(l.p2 - l.p1)` for some `t`; and `distance(l, p)` is the same value. -/
theorem C16_distance_point_line (l : Line ℝ) (p : Point ℝ) (A B C : ℝ) (hl : l.p1 ≠ l.p2)
    (h : l.toABC = (A, B, C)) :
    distancePointLine Real.sqrt p l * norm Real.sqrt (l.p2 - l.p1) = |A * p.x + B * p.y + C|
      ∧ 0 ≤ distancePointLine Real.sqrt p l
      ∧ (distancePointLine Real.sqrt p l = 0 ↔ A * p.x + B * p.y + C = 0)
      ∧ (distancePointLine Real.sqrt p l = 0 ↔ ∃ t : ℝ, p = l.p1 + t * (l.p2 - l.p1))
      ∧ distanceLinePoint Real.sqrt l p = distancePointLine Real.sqrt p l := by
  have hA : l.toABC.1 = A := by rw [h]
  have hB : l.toABC.2.1 = B := by rw [h]
  have hC : l.toABC.2.2 = C := by rw [h]
  have hev := toABC_eval l p
  rw [hA, hB, hC] at hev
  have hN := norm2_dir_pos l hl
  have hn0 : 0 < norm Real.sqrt (l.p2 - l.p1) := Real.sqrt_pos.mpr hN
  have hd : distancePointLine Real.sqrt p l
      = |cross (l.p2 - l.p1) (p - l.p1)| / norm Real.sqrt (l.p2 - l.p1) := by
    simp only [distancePointLine, normalise]
    rw [← abs_of_pos hn0, ← abs_div, abs_of_pos hn0]
    congr 1
    simp only [cross, div_x, div_y]
    ring
  have hzero : distancePointLine Real.sqrt p l = 0 ↔ A * p.x + B * p.y + C = 0 := by
    rw [hd, hev, div_eq_zero_iff, abs_eq_zero]
    constructor
    · rintro (h0 | h0)
      · exact h0
      · exact absurd h0 hn0.ne.symm
    · intro h0
      exact Or.inl h0
  refine ⟨?_, ?_, hzero, ?_, rfl⟩
  · rw [hd, hev, div_mul_cancel₀ _ hn0.ne.symm]
  · rw [hd]
    exact div_nonneg (abs_nonneg _) hn0.le
  · rw [hzero, hev]
    exact cross_eq_zero_iff_param l hl p

/-- C16 at the line through `(-2,0)-(2,0)`, implicit form `(0, 4, 0)`, and the point
`(0,3)`: the distance times the direction length `4` is `|0·0 + 4·3 + 0| = 12`. -/
theorem C16_distance_witness :
    distancePointLine Real.sqrt (⟨0, 3⟩ : Point ℝ) ⟨⟨-2, 0⟩, ⟨2, 0⟩⟩
        * norm Real.sqrt ((⟨2, 0⟩ : Point ℝ) - (⟨-2, 0⟩ : Point ℝ))
        = |(0 : ℝ) * 0 + 4 * 3 + 0|
      ∧ distancePointLine Real.sqrt (⟨0, 3⟩ : Point ℝ) ⟨⟨-2, 0⟩, ⟨2, 0⟩⟩ = 3
      ∧ distanceLinePoint Real.sqrt (⟨⟨-2, 0⟩, ⟨2, 0⟩⟩ : Line ℝ) ⟨0, 3⟩
        = distancePointLine Real.sqrt (⟨0, 3⟩ : Point ℝ) ⟨⟨-2, 0⟩, ⟨2, 0⟩⟩ := by
  have hne : (⟨-2, 0⟩ : Point ℝ) ≠ ⟨2, 0⟩ := by
    intro h
    have := congrArg Point.x h
    norm_num at this
  have h := C16_distance_point_line (⟨⟨-2, 0⟩, ⟨2, 0⟩⟩ : Line ℝ) ⟨0, 3⟩ 0 4 0 hne
    (by norm_num [Line.toABC, cross])
  refine ⟨h.1, ?_, h.2.2.2.2⟩
  simp only [distancePointLine, normalise, norm, norm2, dot, cross, sub_x, sub_y, div_x, div_y]
  norm_num [sqrt_sixteen]

/-! ## The equiangle circle -/

/-- The body of `equiangleCircle` in terms of its local references `c1`, `c2` and `dist`. -/
theorem equiangleCircle_locals {T : Type} [LinearOrderedField T] (sqrt : T → T)
    (cc1 cc2 : Circle T) :
    equiangleCircle sqrt cc1 cc2
      = ⟨(equiangleCircle_c1 cc1 cc2).p
          - ((equiangleCircle_c2 cc1 cc2).p - (equiangleCircle_c1 cc1 cc2).p)
              / equiangleCircle_dist sqrt cc1 cc2
            * (((equiangleCircle_c1 cc1 cc2).r * equiangleCircle_dist sqrt cc1 cc2
                  / ((equiangleCircle_c2 cc1 cc2).r + (equiangleCircle_c1 cc1 cc2).r)
                + (equiangleCircle_c1 cc1 cc2).r * equiangleCircle_dist sqrt cc1 cc2
                  / ((equiangleCircle_c2 cc1 cc2).r - (equiangleCircle_c1 cc1 cc2).r)) / (2 : T)
              - (equiangleCircle_c1 cc1 cc2).r * equiangleCircle_dist sqrt cc1 cc2
                  / ((equiangleCircle_c2 cc1 cc2).r + (equiangleCircle_c1 cc1 cc2).r)),
        ((equiangleCircle_c1 cc1 cc2).r * equiangleCircle_dist sqrt cc1 cc2
              / ((equiangleCircle_c2 cc1 cc2).r + (equiangleCircle_c1 cc1 cc2).r)
            + (equiangleCircle_c1 cc1 cc2).r * equiangleCircle_dist sqrt cc1 cc2
              / ((equiangleCircle_c2 cc1 cc2).r - (equiangleCircle_c1 cc1 cc2).r)) / (2 : T)⟩ :=
  rfl

/-- Two distinct points `a`, `b`: the length `D` of `b - a` is positive and `b = a + D·v`
for a unit vector `v`. -/
theorem unit_dir (a b : Point ℝ) (h : a ≠ b) :
    ∃ D vx vy : ℝ, 0 < D ∧ norm Real.sqrt (b - a) = D
      ∧ b = ⟨a.x + D * vx, a.y + D * vy⟩ ∧ vx * vx + vy * vy = 1 := by
  have hN := norm2_dir_pos ⟨a, b⟩ h
  simp only at hN
  have hn0 := Real.sqrt_pos.mpr hN
  have hnn := Real.mul_self_sqrt hN.le
  refine ⟨Real.sqrt (norm2 (b - a)), (b.x - a.x) / Real.sqrt (norm2 (b - a)),
    (b.y - a.y) / Real.sqrt (norm2 (b - a)), hn0, rfl, ?_, ?_⟩
  · ext
    · simp only
      field_simp
    · simp only
      field_simp
  · generalize Real.sqrt (norm2 (b - a)) = n at *
    simp only [norm2, dot, sub_x, sub_y] at hnn
    field_simp
    linarith

/-- With `s.r < l.r`, the result of `equiangleCircle` written with `s` as `c1` and `l` as
`c2`, in either argument order. -/
theorem equiangleCircle_of_lt (s l : Circle ℝ) (hsl : s.r < l.r) :
    equiangleCircle Real.sqrt s l
        = ⟨s.p - (l.p - s.p) / norm Real.sqrt (l.p - s.p)
              * ((s.r * norm Real.sqrt (l.p - s.p) / (l.r + s.r)
                  + s.r * norm Real.sqrt (l.p - s.p) / (l.r - s.r)) / 2
                - s.r * norm Real.sqrt (l.p - s.p) / (l.r + s.r)),
            (s.r * norm Real.sqrt (l.p - s.p) / (l.r + s.r)
              + s.r * norm Real.sqrt (l.p - s.p) / (l.r - s.r)) / 2⟩
      ∧ equiangleCircle Real.sqrt l s = equiangleCircle Real.sqrt s l := by
  have h1 : ¬ l.r < s.r := not_lt.mpr hsl.le
  constructor
  · simp only [equiangleCircle, gt_iff_lt, if_pos hsl, if_neg h1]
  · simp only [equiangleCircle, gt_iff_lt, if_pos hsl, if_neg h1]

/-- C12 as stated fails: for the equal-radius circles `((0,0),1)` and `((4,0),1)` the
reference `c1` is the second argument, not the first, and `dist` is `0`, not the distance
`4` between the two centres. -/
theorem C12_counterexample :
    equiangleCircle_c1 (⟨⟨0, 0⟩, 1⟩ : Circle ℝ) ⟨⟨4, 0⟩, 1⟩ = ⟨⟨4, 0⟩, 1⟩
      ∧ equiangleCircle_c1 (⟨⟨0, 0⟩, 1⟩ : Circle ℝ) ⟨⟨4, 0⟩, 1⟩ ≠ ⟨⟨0, 0⟩, 1⟩
      ∧ equiangleCircle_dist Real.sqrt (⟨⟨0, 0⟩, 1⟩ : Circle ℝ) ⟨⟨4, 0⟩, 1⟩ = 0
      ∧ distance Real.sqrt (⟨0, 0⟩ : Point ℝ) ⟨4, 0⟩ = 4 := by
  have h : equiangleCircle_c1 (⟨⟨0, 0⟩, 1⟩ : Circle ℝ) ⟨⟨4, 0⟩, 1⟩ = ⟨⟨4, 0⟩, 1⟩ := by
    simp [equiangleCircle_c1]
  refine ⟨h, ?_, ?_, ?_⟩
  · rw [h]
    intro h0
    have := congrArg (fun c : Circle ℝ => c.p.x) h0
    norm_num at this
  · simp [equiangleCircle_dist, equiangleCircle_c1, equiangleCircle_c2, norm, norm2, dot]
  · apply distance_eq_of_distance2 _ _ _ (by norm_num)
    norm_num [distance2, norm2, dot]

/-- C12 amended: when the two argument circles have equal radii, both `c1` and `c2` are the
second argument `cc2`, so `dist` is `0`; when `cc1.r < cc2.r`, `c1` is `cc1` and `c2` is
`cc2`; when `cc1.r > cc2.r`, `c1` is `cc2` and `c2` is `cc1`. -/
theorem C12_relabelling (cc1 cc2 : Circle ℝ) :
    (cc1.r = cc2.r →
        equiangleCircle_c1 cc1 cc2 = cc2 ∧ equiangleCircle_c2 cc1 cc2 = cc2
          ∧ equiangleCircle_dist Real.sqrt cc1 cc2 = 0)
      ∧ (cc1.r < cc2.r → equiangleCircle_c1 cc1 cc2 = cc1 ∧ equiangleCircle_c2 cc1 cc2 = cc2)
      ∧ (cc1.r > cc2.r → equiangleCircle_c1 cc1 cc2 = cc2 ∧ equiangleCircle_c2 cc1 cc2 = cc1) := by
  refine ⟨?_, ?_, ?_⟩
  · intro h
    have h1 : equiangleCircle_c1 cc1 cc2 = cc2 := by
      simp only [equiangleCircle_c1, h, lt_irrefl, if_false]
    have h2 : equiangleCircle_c2 cc1 cc2 = cc2 := by
      simp only [equiangleCircle_c2, gt_iff_lt, h, lt_irrefl, if_false]
    refine ⟨h1, h2, ?_⟩
    simp only [equiangleCircle_dist, h1, h2, norm, norm2, dot, sub_x, sub_y, sub_self,
      mul_zero, add_zero, Real.sqrt_zero]
  · intro h
    have h1 : ¬ cc2.r < cc1.r := not_lt.mpr h.le
    exact ⟨by simp only [equiangleCircle_c1, if_pos h],
      by simp only [equiangleCircle_c2, gt_iff_lt, if_neg h1]⟩
  · intro h
    have h' : cc2.r < cc1.r := h
    have h1 : ¬ cc1.r < cc2.r := not_lt.mpr h'.le
    exact ⟨by simp only [equiangleCircle_c1, if_neg h1],
      by simp only [equiangleCircle_c2, gt_iff_lt, if_pos h']⟩

/-- C12 amended, at the equal-radius pair `((0,0),1)`, `((4,0),1)` and at the pair
`((0,0),2)`, `((4,0),1)` whose first circle is the larger. -/
theorem C12_relabelling_witness :
    (equiangleCircle_c1 (⟨⟨0, 0⟩, 1⟩ : Circle ℝ) ⟨⟨4, 0⟩, 1⟩ = ⟨⟨4, 0⟩, 1⟩
        ∧ equiangleCircle_c2 (⟨⟨0, 0⟩, 1⟩ : Circle ℝ) ⟨⟨4, 0⟩, 1⟩ = ⟨⟨4, 0⟩, 1⟩
        ∧ equiangleCircle_dist Real.sqrt (⟨⟨0, 0⟩, 1⟩ : Circle ℝ) ⟨⟨4, 0⟩, 1⟩ = 0)
      ∧ (equiangleCircle_c1 (⟨⟨0, 0⟩, 2⟩ : Circle ℝ) ⟨⟨4, 0⟩, 1⟩ = ⟨⟨4, 0⟩, 1⟩
        ∧ equiangleCircle_c2 (⟨⟨0, 0⟩, 2⟩ : Circle ℝ) ⟨⟨4, 0⟩, 1⟩ = ⟨⟨0, 0⟩, 2⟩) :=
  ⟨(C12_relabelling (⟨⟨0, 0⟩, 1⟩ : Circle ℝ) ⟨⟨4, 0⟩, 1⟩).1 rfl,
    (C12_relabelling (⟨⟨0, 0⟩, 2⟩ : Circle ℝ) ⟨⟨4, 0⟩, 1⟩).2.2 (by norm_num)⟩

/-- C11: for circles `s`, `l` with distinct centres and `0 < s.r < l.r`, `equiangleCircle`
gives the same circle in either argument order; its centre lies on the line through the two
centres and is the midpoint of the internal similitude point
`(l.r·s.p + s.r·l.p)/(l.r + s.r)` and the external one `(l.r·s.p - s.r·l.p)/(l.r - s.r)`; its
radius is half the distance of these two points and equals `(din + dout)/2`. -/
theorem C11_equiangleCircle_similitude (s l : Circle ℝ) (hp : s.p ≠ l.p) (hs : 0 < s.r)
    (hsl : s.r < l.r) :
    equiangleCircle Real.sqrt l s = equiangleCircle Real.sqrt s l
      ∧ cross (l.p - s.p) ((equiangleCircle Real.sqrt s l).p - s.p) = 0
      ∧ (equiangleCircle Real.sqrt s l).p
          = ((l.r * s.p + s.r * l.p) / (l.r + s.r) + (l.r * s.p - s.r * l.p) / (l.r - s.r))
              / (2 : ℝ)
      ∧ (equiangleCircle Real.sqrt s l).r
          = distance Real.sqrt ((l.r * s.p + s.r * l.p) / (l.r + s.r))
              ((l.r * s.p - s.r * l.p) / (l.r - s.r)) / 2
      ∧ (equiangleCircle Real.sqrt s l).r
          = (s.r * norm Real.sqrt (l.p - s.p) / (l.r + s.r)
              + s.r * norm Real.sqrt (l.p - s.p) / (l.r - s.r)) / 2 := by
  obtain ⟨hform, hswap⟩ := equiangleCircle_of_lt s l hsl
  obtain ⟨D, vx, vy, hD0, hD, hb, hv⟩ := unit_dir s.p l.p hp
  have hsum : 0 < l.r + s.r := by linarith
  have hdiff : 0 < l.r - s.r := by linarith
  refine ⟨hswap, ?_, ?_, ?_, ?_⟩
  · rw [hform]
    simp only [cross, sub_x, sub_y, muls_x, muls_y, div_x, div_y]
    ring
  · rw [hform, hD]
    obtain ⟨⟨a, b⟩, sr⟩ := s
    obtain ⟨lp, lr⟩ := l
    simp only at hb hs hsl hsum hdiff ⊢
    subst hb
    ext
    · simp only [sub_x, add_x, muls_x, smul_x, div_x]
      field_simp
      ring
    · simp only [sub_y, add_y, muls_y, smul_y, div_y]
      field_simp
      ring
  · rw [hform, hD]
    obtain ⟨⟨a, b⟩, sr⟩ := s
    obtain ⟨lp, lr⟩ := l
    simp only at hb hs hsl hsum hdiff ⊢
    subst hb
    have hR : 0 ≤ (sr * D / (lr + sr) + sr * D / (lr - sr)) / 2 * 2 := by positivity
    rw [eq_div_iff (by norm_num : (2 : ℝ) ≠ 0)]
    symm
    apply distance_eq_of_distance2 _ _ _ hR
    simp only [distance2, norm2, dot, sub_x, sub_y, add_x, add_y, smul_x, smul_y, div_x, div_y]
    have ex : (lr * a + sr * (a + D * vx)) / (lr + sr) - (lr * a - sr * (a + D * vx)) / (lr - sr)
        = (sr * D / (lr + sr) + sr * D / (lr - sr)) * vx := by
      field_simp
      ring
    have ey : (lr * b + sr * (b + D * vy)) / (lr + sr) - (lr * b - sr * (b + D * vy)) / (lr - sr)
        = (sr * D / (lr + sr) + sr * D / (lr - sr)) * vy := by
      field_simp
      ring
    rw [ex, ey]
    linear_combination
      ((sr * D / (lr + sr) + sr * D / (lr - sr)) * (sr * D / (lr + sr) + sr * D / (lr - sr))) * hv
  · rw [hform]

/-- The distance `6` between the centres used in the example below. -/
theorem sqrt_thirtysix : Real.sqrt 36 = 6 := by
  rw [show (36 : ℝ) = 6 * 6 by norm_num, Real.sqrt_mul_self (by norm_num)]

/-- The equiangle circle of `((0,0),1)` and `((6,0),2)` has centre `(-2,0)` and radius `4`. -/
theorem equiangleCircle_example :
    (equiangleCircle Real.sqrt (⟨⟨0, 0⟩, 1⟩ : Circle ℝ) ⟨⟨6, 0⟩, 2⟩).p = ⟨-2, 0⟩
      ∧ (equiangleCircle Real.sqrt (⟨⟨0, 0⟩, 1⟩ : Circle ℝ) ⟨⟨6, 0⟩, 2⟩).r = 4 := by
  constructor
  · ext <;>
      simp only [equiangleCircle, norm, norm2, dot, sub_x, sub_y, muls_x, muls_y, div_x,
        div_y] <;>
      norm_num [sqrt_thirtysix]
  · simp only [equiangleCircle, norm, norm2, dot, sub_x, sub_y]
    norm_num [sqrt_thirtysix]

/-- C11 at the spec's example `c1 = ((0,0),1)`, `c2 = ((6,0),2)`: the result has centre
`(-2,0)` and radius `4`, in either argument order, and the similitude points are the ends
of a diameter. -/
theorem C11_equiangleCircle_witness :
    ((equiangleCircle Real.sqrt (⟨⟨0, 0⟩, 1⟩ : Circle ℝ) ⟨⟨6, 0⟩, 2⟩).p = ⟨-2, 0⟩
        ∧ (equiangleCircle Real.sqrt (⟨⟨0, 0⟩, 1⟩ : Circle ℝ) ⟨⟨6, 0⟩, 2⟩).r = 4)
      ∧ equiangleCircle Real.sqrt (⟨⟨6, 0⟩, 2⟩ : Circle ℝ) ⟨⟨0, 0⟩, 1⟩
          = equiangleCircle Real.sqrt (⟨⟨0, 0⟩, 1⟩ : Circle ℝ) ⟨⟨6, 0⟩, 2⟩
      ∧ cross ((⟨6, 0⟩ : Point ℝ) - (⟨0, 0⟩ : Point ℝ))
          ((equiangleCircle Real.sqrt (⟨⟨0, 0⟩, 1⟩ : Circle ℝ) ⟨⟨6, 0⟩, 2⟩).p
            - (⟨0, 0⟩ : Point ℝ)) = 0
      ∧ (equiangleCircle Real.sqrt (⟨⟨0, 0⟩, 1⟩ : Circle ℝ) ⟨⟨6, 0⟩, 2⟩).p
          = (((2 : ℝ) * (⟨0, 0⟩ : Point ℝ) + (1 : ℝ) * (⟨6, 0⟩ : Point ℝ)) / ((2 : ℝ) + 1)
              + ((2 : ℝ) * (⟨0, 0⟩ : Point ℝ) - (1 : ℝ) * (⟨6, 0⟩ : Point ℝ)) / ((2 : ℝ) - 1))
            / (2 : ℝ)
      ∧ (equiangleCircle Real.sqrt (⟨⟨0, 0⟩, 1⟩ : Circle ℝ) ⟨⟨6, 0⟩, 2⟩).r
          = distance Real.sqrt
              (((2 : ℝ) * (⟨0, 0⟩ : Point ℝ) + (1 : ℝ) * (⟨6, 0⟩ : Point ℝ)) / ((2 : ℝ) + 1))
              (((2 : ℝ) * (⟨0, 0⟩ : Point ℝ) - (1 : ℝ) * (⟨6, 0⟩ : Point ℝ)) / ((2 : ℝ) - 1)) / 2
      ∧ (equiangleCircle Real.sqrt (⟨⟨0, 0⟩, 1⟩ : Circle ℝ) ⟨⟨6, 0⟩, 2⟩).r
          = ((1 : ℝ) * norm Real.sqrt ((⟨6, 0⟩ : Point ℝ) - (⟨0, 0⟩ : Point ℝ)) / ((2 : ℝ) + 1)
              + (1 : ℝ) * norm Real.sqrt ((⟨6, 0⟩ : Point ℝ) - (⟨0, 0⟩ : Point ℝ))
                / ((2 : ℝ) - 1)) / 2 := by
  refine ⟨equiangleCircle_example,
    C11_equiangleCircle_similitude (⟨⟨0, 0⟩, 1⟩ : Circle ℝ) ⟨⟨6, 0⟩, 2⟩ ?_
      (by norm_num) (by norm_num)⟩
  · intro h
    have := congrArg Point.x h
    norm_num at this

/-- C18: for circles `s`, `l` with distinct centres and `0 < s.r < l.r`, every point `P` on
the result circle of `equiangleCircle` (in either argument order) satisfies
`l.r² · distance2(P, s.p) = s.r² · distance2(P, l.p)`. -/
theorem C18_equiangleCircle_apollonius (s l : Circle ℝ) (hp : s.p ≠ l.p) (hs : 0 < s.r)
    (hsl : s.r < l.r) (P : Point ℝ) :
    (distance2 P (equiangleCircle Real.sqrt s l).p = (equiangleCircle Real.sqrt s l).r ^ 2
        → l.r ^ 2 * distance2 P s.p = s.r ^ 2 * distance2 P l.p)
      ∧ (distance2 P (equiangleCircle Real.sqrt l s).p = (equiangleCircle Real.sqrt l s).r ^ 2
        → l.r ^ 2 * distance2 P s.p = s.r ^ 2 * distance2 P l.p) := by
  obtain ⟨hform, hswap⟩ := equiangleCircle_of_lt s l hsl
  rw [hswap, and_self]
  rw [hform]
  obtain ⟨D, vx, vy, hD0, hD, hb, hv⟩ := unit_dir s.p l.p hp
  rw [hD]
  have hsum : l.r + s.r ≠ 0 := by linarith
  have hdiff : l.r - s.r ≠ 0 := by linarith
  obtain ⟨⟨a, b⟩, sr⟩ := s
  obtain ⟨lp, lr⟩ := l
  obtain ⟨x, y⟩ := P
  simp only at hb hs hsl hsum hdiff ⊢
  subst hb
  have e1 : (lr * lr - sr * sr)
      * ((sr * D / (lr + sr) + sr * D / (lr - sr)) / 2 - sr * D / (lr + sr)) = sr * sr * D := by
    field_simp
    ring
  have e2 : (lr * lr - sr * sr)
      * ((sr * D / (lr + sr) + sr * D / (lr - sr)) / 2
          * ((sr * D / (lr + sr) + sr * D / (lr - sr)) / 2)
        - ((sr * D / (lr + sr) + sr * D / (lr - sr)) / 2 - sr * D / (lr + sr))
          * ((sr * D / (lr + sr) + sr * D / (lr - sr)) / 2 - sr * D / (lr + sr)))
      = sr * sr * D * D := by
    field_simp
    ring
  have ex : (a + D * vx - a) / D = vx := by field_simp
  have ey : (b + D * vy - b) / D = vy := by field_simp
  simp only [distance2, norm2, dot, sub_x, sub_y, muls_x, muls_y, div_x, div_y, ex, ey, pow_two]
  generalize (sr * D / (lr + sr) + sr * D / (lr - sr)) / 2 = R at *
  generalize sr * D / (lr + sr) = din at *
  intro hP
  linear_combination (lr * lr - sr * sr) * hP
    - (2 * ((x - a) * vx + (y - b) * vy)) * e1 + e2
    - ((lr * lr - sr * sr) * (R - din) * (R - din) + sr * sr * D * D) * hv

/-- C18 at the spec's example circles `((0,0),1)`, `((6,0),2)` and the point `(2,0)` of the
result circle: `2² · 4 = 1² · 16`. -/
theorem C18_apollonius_witness :
    (2 : ℝ) ^ 2 * distance2 (⟨2, 0⟩ : Point ℝ) ⟨0, 0⟩
      = (1 : ℝ) ^ 2 * distance2 (⟨2, 0⟩ : Point ℝ) ⟨6, 0⟩ := by
  apply (C18_equiangleCircle_apollonius (⟨⟨0, 0⟩, 1⟩ : Circle ℝ) ⟨⟨6, 0⟩, 2⟩ ?_
    (by norm_num) (by norm_num) (⟨2, 0⟩ : Point ℝ)).1
  · rw [equiangleCircle_example.1, equiangleCircle_example.2]
    norm_num [distance2, norm2, dot]
  · intro h
    have := congrArg Point.x h
    norm_num at this

/-! ## Circle-circle intersection: the two-point branch in coordinates -/

/-- Normal form of the two-point branch.  With positive radii, `D = dist2 > eps`, `D` more
than `eps` away from `(r1+r2)²` and `(r1-r2)²` and strictly between them, there are
`d > 0` with `d² = D`, `α` with `2·d·α = r1² + d² - r2²` and `h > 0` with `h² = r1² - α²`
such that, with `u = c2.p - c1.p`, the result is
`[c1.p + (α·u + h·rotate90 u)/d, c1.p + (α·u - h·rotate90 u)/d]`. -/
theorem secant_normal_form (c1 c2 : Circle ℝ) (hr1 : 0 < c1.r) (hr2 : 0 < c2.r)
    (hd : eps < distance2 c1.p c2.p)
    (h1 : eps < |distance2 c1.p c2.p - (c1.r + c2.r) * (c1.r + c2.r)|)
    (h2 : distance2 c1.p c2.p < (c1.r + c2.r) * (c1.r + c2.r))
    (h3 : eps < |distance2 c1.p c2.p - (c1.r - c2.r) * (c1.r - c2.r)|)
    (h4 : (c1.r - c2.r) * (c1.r - c2.r) < distance2 c1.p c2.p) :
    ∃ d α h : ℝ, 0 < d ∧ d * d = distance2 c1.p c2.p
      ∧ 2 * d * α = c1.r * c1.r + d * d - c2.r * c2.r
      ∧ 0 < h ∧ h * h = c1.r * c1.r - α * α
      ∧ intersectionCircleCircle Real.sqrt c1 c2
        = [⟨c1.p.x + (α * (c2.p.x - c1.p.x) + h * (c2.p.y - c1.p.y)) / d,
            c1.p.y + (α * (c2.p.y - c1.p.y) - h * (c2.p.x - c1.p.x)) / d⟩,
           ⟨c1.p.x + (α * (c2.p.x - c1.p.x) - h * (c2.p.y - c1.p.y)) / d,
            c1.p.y + (α * (c2.p.y - c1.p.y) + h * (c2.p.x - c1.p.x)) / d⟩] := by
  simp only [intersectionCircleCircle]
  rw [if_neg (not_le.mpr hd), if_neg (not_le.mpr h1), if_neg (not_lt.mpr h2.le),
    if_neg (not_le.mpr h3), if_neg (not_lt.mpr h4.le)]
  obtain ⟨⟨a, b⟩, r1⟩ := c1
  obtain ⟨⟨c, e⟩, r2⟩ := c2
  simp only at hr1 hr2 hd h1 h2 h3 h4 ⊢
  have hDpos : 0 < distance2 (⟨a, b⟩ : Point ℝ) ⟨c, e⟩ := lt_trans eps_real_pos hd
  generalize distance2 (⟨a, b⟩ : Point ℝ) ⟨c, e⟩ = D at *
  have hd0 : 0 < √D := Real.sqrt_pos.mpr hDpos
  have hdd : √D * √D = D := Real.mul_self_sqrt hDpos.le
  generalize √D = d at *
  have hk : 2 * r1 * d * ((r1 * r1 + D - r2 * r2) / 2 / r1 / d) = r1 * r1 + d * d - r2 * r2 := by
    rw [hdd]; field_simp
  generalize (r1 * r1 + D - r2 * r2) / 2 / r1 / d = k at *
  have hlt1 : d < r1 + r2 := by
    apply lt_of_mul_self_lt_mul_self₀ (by linarith)
    rw [hdd]; exact h2
  have hlt2 : r1 - r2 < d := by
    apply lt_of_mul_self_lt_mul_self₀ hd0.le
    rw [hdd]; exact h4
  have hlt3 : r2 - r1 < d := by
    apply lt_of_mul_self_lt_mul_self₀ hd0.le
    rw [hdd]; linarith
  have hprod : (2 * r1 * d) * (2 * r1 * d) * (1 - k * k)
      = ((r2 + d - r1) * (r2 + r1 - d)) * ((r1 + d - r2) * (r1 + d + r2)) := by
    linear_combination (-(2 * r1 * d * k + (r1 * r1 + d * d - r2 * r2))) * hk
  have hk1 : 0 < 1 - k * k := by
    have hpos : 0 < (2 * r1 * d) * (2 * r1 * d) * (1 - k * k) := by
      rw [hprod]
      apply mul_pos <;> apply mul_pos <;> linarith
    have hc : 0 < (2 * r1 * d) * (2 * r1 * d) := by positivity
    exact (mul_pos_iff_of_pos_left hc).mp hpos
  have hs : √(1 - k * k) * √(1 - k * k) = 1 - k * k := Real.mul_self_sqrt hk1.le
  have hs0 : 0 < √(1 - k * k) := Real.sqrt_pos.mpr hk1
  generalize √(1 - k * k) = s at *
  refine ⟨d, r1 * k, r1 * s, hd0, hdd, by linear_combination hk, mul_pos hr1 hs0,
    by linear_combination (r1 * r1) * hs, ?_⟩
  have hdne : d ≠ 0 := hd0.ne.symm
  simp only [List.cons.injEq, and_true]
  constructor <;> ext <;>
    simp only [add_x, add_y, sub_x, sub_y, muls_x, muls_y, div_x, div_y, rotate90, rotate270] <;>
    field_simp <;> ring

/-- C17: in the proper-intersection case with positive radii the two returned points
`[P, Q]` are mirror images across the line through the centres (their midpoint is on that
line and `P - Q` is orthogonal to `c2.p - c1.p`), and `P` is on the clockwise side of the
direction `c1.p → c2.p`: `cross(c2.p - c1.p, P - c1.p) < 0 < cross(c2.p - c1.p, Q - c1.p)`. -/
theorem C17_secant_order_and_symmetry (c1 c2 : Circle ℝ) (hr1 : 0 < c1.r) (hr2 : 0 < c2.r)
    (hd : eps < distance2 c1.p c2.p)
    (h1 : eps < |distance2 c1.p c2.p - (c1.r + c2.r) ^ 2|)
    (h2 : distance2 c1.p c2.p < (c1.r + c2.r) ^ 2)
    (h3 : eps < |distance2 c1.p c2.p - (c1.r - c2.r) ^ 2|)
    (h4 : (c1.r - c2.r) ^ 2 < distance2 c1.p c2.p) :
    ∃ P Q, intersectionCircleCircle Real.sqrt c1 c2 = [P, Q]
      ∧ cross (c2.p - c1.p) ((P + Q) / (2 : ℝ) - c1.p) = 0
      ∧ dot (P - Q) (c2.p - c1.p) = 0
      ∧ cross (c2.p - c1.p) (P - c1.p) < 0
      ∧ 0 < cross (c2.p - c1.p) (Q - c1.p) := by
  simp only [pow_two] at h1 h2 h3 h4
  obtain ⟨d, α, h, hd0, hdd, -, hh0, -, hlist⟩ :=
    secant_normal_form c1 c2 hr1 hr2 hd h1 h2 h3 h4
  refine ⟨_, _, hlist, ?_, ?_, ?_, ?_⟩
  · simp only [cross, sub_x, sub_y, add_x, add_y, div_x, div_y]
    field_simp
    ring
  · simp only [dot, sub_x, sub_y]
    field_simp
    ring
  · have hc : cross (c2.p - c1.p)
        ((⟨c1.p.x + (α * (c2.p.x - c1.p.x) + h * (c2.p.y - c1.p.y)) / d,
          c1.p.y + (α * (c2.p.y - c1.p.y) - h * (c2.p.x - c1.p.x)) / d⟩ : Point ℝ) - c1.p)
        = -(h * d) := by
      simp only [distance2, norm2, dot, sub_x, sub_y] at hdd
      simp only [cross, sub_x, sub_y]
      field_simp
      linear_combination h * hdd
    rw [hc]
    exact neg_neg_of_pos (mul_pos hh0 hd0)
  · have hc : cross (c2.p - c1.p)
        ((⟨c1.p.x + (α * (c2.p.x - c1.p.x) - h * (c2.p.y - c1.p.y)) / d,
          c1.p.y + (α * (c2.p.y - c1.p.y) + h * (c2.p.x - c1.p.x)) / d⟩ : Point ℝ) - c1.p)
        = h * d := by
      simp only [distance2, norm2, dot, sub_x, sub_y] at hdd
      simp only [cross, sub_x, sub_y]
      field_simp
      linear_combination (-h) * hdd
    rw [hc]
    exact mul_pos hh0 hd0

/-- C17 at the spec's example, centres `(0,0)` and `(1,0)`, both radii `2`: the first
returned point has negative `y`, the second positive `y`. -/
theorem C17_secant_order_witness :
    ∃ P Q, intersectionCircleCircle Real.sqrt (⟨⟨0, 0⟩, 2⟩ : Circle ℝ) ⟨⟨1, 0⟩, 2⟩ = [P, Q]
      ∧ cross ((⟨1, 0⟩ : Point ℝ) - (⟨0, 0⟩ : Point ℝ)) ((P + Q) / (2 : ℝ) - (⟨0, 0⟩ : Point ℝ)) = 0
      ∧ dot (P - Q) ((⟨1, 0⟩ : Point ℝ) - (⟨0, 0⟩ : Point ℝ)) = 0
      ∧ P.y < 0 ∧ 0 < Q.y := by
  obtain ⟨P, Q, hl, hm, hperp, hP, hQ⟩ :=
    C17_secant_order_and_symmetry (⟨⟨0, 0⟩, 2⟩ : Circle ℝ) ⟨⟨1, 0⟩, 2⟩
      (by norm_num) (by norm_num)
      (by norm_num [distance2, norm2, dot, eps])
      (by norm_num [distance2, norm2, dot, eps])
      (by norm_num [distance2, norm2, dot])
      (by norm_num [distance2, norm2, dot, eps])
      (by norm_num [distance2, norm2, dot])
  refine ⟨P, Q, hl, hm, hperp, ?_, ?_⟩
  · simpa [cross] using hP
  · simpa [cross] using hQ

/-- A point at distance `r ≥ 0` (by `distance`) has squared distance `r·r`. -/
theorem distance2_of_distance (P Q : Point ℝ) (r : ℝ)
    (h : distance Real.sqrt P Q = r) : distance2 P Q = r * r := by
  have h0 : 0 ≤ norm2 (P - Q) := by
    simp only [norm2, dot]
    exact add_nonneg (mul_self_nonneg _) (mul_self_nonneg _)
  have := Real.mul_self_sqrt h0
  unfold distance norm at h
  rw [h] at this
  exact this.symm

/-- Triangle inequalities in squared form: if `P` has squared distance `r1²` to `a` and
`r2²` to `b`, with `r1, r2 ≥ 0`, then `(r1 - r2)² ≤ distance2(a, b) ≤ (r1 + r2)²`. -/
theorem common_point_bounds (P a b : Point ℝ) (r1 r2 : ℝ) (hr1 : 0 ≤ r1) (hr2 : 0 ≤ r2)
    (h1 : distance2 P a = r1 * r1) (h2 : distance2 P b = r2 * r2) :
    (r1 - r2) * (r1 - r2) ≤ distance2 a b ∧ distance2 a b ≤ (r1 + r2) * (r1 + r2) := by
  simp only [distance2, norm2, dot, sub_x, sub_y] at h1 h2 ⊢
  have hcs : ((P.x - a.x) * (P.x - b.x) + (P.y - a.y) * (P.y - b.y)) ^ 2 ≤ (r1 * r2) ^ 2 := by
    have hsq : 0 ≤ ((P.x - a.x) * (P.y - b.y) - (P.y - a.y) * (P.x - b.x)) ^ 2 := sq_nonneg _
    have : (r1 * r2) ^ 2 = (r1 * r1) * (r2 * r2) := by ring
    rw [this, ← h1, ← h2]
    linarith [hsq, show ((P.x - a.x) * (P.x - a.x) + (P.y - a.y) * (P.y - a.y))
        * ((P.x - b.x) * (P.x - b.x) + (P.y - b.y) * (P.y - b.y))
        = ((P.x - a.x) * (P.x - b.x) + (P.y - a.y) * (P.y - b.y)) ^ 2
          + ((P.x - a.x) * (P.y - b.y) - (P.y - a.y) * (P.x - b.x)) ^ 2 by ring]
  obtain ⟨hlo, hhi⟩ := abs_le_of_sq_le_sq' hcs (mul_nonneg hr1 hr2)
  constructor
  · linarith
  · linarith

/-- C19: for circles with non-negative radii and squared centre distance above `eps`, if
`intersection(c1, c2)` is empty then no point is at distance `c1.r` from `c1.p` and at
distance `c2.r` from `c2.p`. -/
theorem C19_empty_is_sound (c1 c2 : Circle ℝ) (hr1 : 0 ≤ c1.r) (hr2 : 0 ≤ c2.r)
    (hd : eps < distance2 c1.p c2.p)
    (hempty : intersectionCircleCircle Real.sqrt c1 c2 = []) :
    ¬ ∃ P : Point ℝ, distance Real.sqrt P c1.p = c1.r ∧ distance Real.sqrt P c2.p = c2.r := by
  rintro ⟨P, hP1, hP2⟩
  obtain ⟨hlo, hhi⟩ := common_point_bounds P c1.p c2.p c1.r c2.r hr1 hr2
    (distance2_of_distance P c1.p c1.r hP1) (distance2_of_distance P c2.p c2.r hP2)
  simp only [intersectionCircleCircle] at hempty
  rw [if_neg (not_le.mpr hd)] at hempty
  split_ifs at hempty with ha hb hc he
  · exact absurd hb (not_lt.mpr hhi)
  · exact absurd he (not_lt.mpr hlo)

/-- C19 at the disjoint circles `((0,0),1)` and `((5,0),1)`: the result is empty and no point
lies on both circles. -/
theorem C19_empty_witness :
    intersectionCircleCircle Real.sqrt (⟨⟨0, 0⟩, 1⟩ : Circle ℝ) ⟨⟨5, 0⟩, 1⟩ = []
      ∧ ¬ ∃ P : Point ℝ, distance Real.sqrt P (⟨0, 0⟩ : Point ℝ) = 1
          ∧ distance Real.sqrt P (⟨5, 0⟩ : Point ℝ) = 1 := by
  have h : intersectionCircleCircle Real.sqrt (⟨⟨0, 0⟩, 1⟩ : Circle ℝ) ⟨⟨5, 0⟩, 1⟩ = [] := by
    simp only [intersectionCircleCircle, distance2, norm2, dot, sub_x, sub_y]
    norm_num [eps]
  exact ⟨h, C19_empty_is_sound (⟨⟨0, 0⟩, 1⟩ : Circle ℝ) ⟨⟨5, 0⟩, 1⟩ (by norm_num) (by norm_num)
    (by norm_num [distance2, norm2, dot, eps]) h⟩

/-- C20: for two circles with positive radii, `intersection(c2, c1)` is
`intersection(c1, c2)` with the order of its elements reversed. -/
theorem C20_argument_swap (c1 c2 : Circle ℝ) (hr1 : 0 < c1.r) (hr2 : 0 < c2.r) :
    intersectionCircleCircle Real.sqrt c2 c1
      = (intersectionCircleCircle Real.sqrt c1 c2).reverse := by
  have he := eps_real_pos
  have hD : distance2 c2.p c1.p = distance2 c1.p c2.p := by
    simp only [distance2, norm2, dot, sub_x, sub_y]
    ring
  have hS : (c2.r + c1.r) * (c2.r + c1.r) = (c1.r + c2.r) * (c1.r + c2.r) := by ring
  have hR : (c2.r - c1.r) * (c2.r - c1.r) = (c1.r - c2.r) * (c1.r - c2.r) := by ring
  by_cases ha : distance2 c1.p c2.p ≤ eps
  · simp only [intersectionCircleCircle, hD, if_pos ha, List.reverse_nil]
  by_cases hb : |distance2 c1.p c2.p - (c1.r + c2.r) * (c1.r + c2.r)| ≤ eps
  · simp only [intersectionCircleCircle, hD, hS, if_neg ha, if_pos hb, List.reverse_cons,
      List.reverse_nil, List.nil_append, List.cons.injEq, and_true]
    ext
    · simp only [div_x, add_x, muls_x]
      ring
    · simp only [div_y, add_y, muls_y]
      ring
  by_cases hc : distance2 c1.p c2.p > (c1.r + c2.r) * (c1.r + c2.r)
  · simp only [intersectionCircleCircle, hD, hS, if_neg ha, if_neg hb, if_pos hc,
      List.reverse_nil]
  by_cases hd : |distance2 c1.p c2.p - (c1.r - c2.r) * (c1.r - c2.r)| ≤ eps
  · have hne : c1.r - c2.r ≠ 0 := by
      intro h0
      rw [h0, mul_zero, sub_zero] at hd
      exact ha (le_trans (le_abs_self _) hd)
    have hne2 : c2.r - c1.r ≠ 0 := by
      intro h0
      apply hne
      linarith
    simp only [intersectionCircleCircle, hD, hS, hR, if_neg ha, if_neg hb, if_neg hc, if_pos hd,
      List.reverse_cons, List.reverse_nil, List.nil_append, List.cons.injEq, and_true]
    ext
    · simp only [div_x, add_x, sub_x, muls_x]
      field_simp
      ring
    · simp only [div_y, add_y, sub_y, muls_y]
      field_simp
      ring
  by_cases hf : distance2 c1.p c2.p < (c1.r - c2.r) * (c1.r - c2.r)
  · simp only [intersectionCircleCircle, hD, hS, hR, if_neg ha, if_neg hb, if_neg hc, if_neg hd,
      if_pos hf, List.reverse_nil]
  -- two points
  have ha2 : eps < distance2 c1.p c2.p := not_le.mp ha
  have hb2 := not_le.mp hb
  have hd2 := not_le.mp hd
  have hc2 : distance2 c1.p c2.p < (c1.r + c2.r) * (c1.r + c2.r) := by
    rcases lt_or_eq_of_le (not_lt.mp hc) with h | h
    · exact h
    · rw [h, sub_self, abs_zero] at hb2
      exact absurd hb2 (not_lt.mpr he.le)
  have hf2 : (c1.r - c2.r) * (c1.r - c2.r) < distance2 c1.p c2.p := by
    rcases lt_or_eq_of_le (not_lt.mp hf) with h | h
    · exact h
    · rw [← h, sub_self, abs_zero] at hd2
      exact absurd hd2 (not_lt.mpr he.le)
  obtain ⟨d, α, h, hd0, hdd, hα, hh0, hhh, hlist⟩ :=
    secant_normal_form c1 c2 hr1 hr2 ha2 hb2 hc2 hd2 hf2
  obtain ⟨d', α', h', hd0', hdd', hα', hh0', hhh', hlist'⟩ :=
    secant_normal_form c2 c1 hr2 hr1 (by rw [hD]; exact ha2) (by rw [hD, hS]; exact hb2)
      (by rw [hD, hS]; exact hc2) (by rw [hD, hR]; exact hd2) (by rw [hD, hR]; exact hf2)
  have hdeq : d' = d := by
    have h0 : d' * d' = d * d := by rw [hdd', hdd, hD]
    exact (mul_self_inj hd0'.le hd0.le).mp h0
  subst hdeq
  have hαeq : α' = d' - α := by
    have h0 : 2 * d' * (α' + α) = 2 * d' * d' := by linear_combination hα' + hα
    have h1 := mul_left_cancel₀ (by positivity : 2 * d' ≠ 0) h0
    linarith
  subst hαeq
  have hheq : h' = h := by
    have h0 : h' * h' = h * h := by linear_combination hhh' - hhh + hα
    exact (mul_self_inj hh0'.le hh0.le).mp h0
  subst hheq
  have hdne : d' ≠ 0 := hd0'.ne.symm
  rw [hlist, hlist']
  simp only [List.reverse_cons, List.reverse_nil, List.nil_append, List.singleton_append,
    List.cons.injEq, and_true]
  constructor <;> ext <;> simp only <;> field_simp <;> ring

/-- C20 at the spec's secant example: swapping the circles `((0,0),2)` and `((1,0),2)`
reverses the two-point result. -/
theorem C20_argument_swap_witness :
    intersectionCircleCircle Real.sqrt (⟨⟨1, 0⟩, 2⟩ : Circle ℝ) ⟨⟨0, 0⟩, 2⟩
      = (intersectionCircleCircle Real.sqrt (⟨⟨0, 0⟩, 2⟩ : Circle ℝ) ⟨⟨1, 0⟩, 2⟩).reverse :=
  C20_argument_swap (⟨⟨0, 0⟩, 2⟩ : Circle ℝ) ⟨⟨1, 0⟩, 2⟩ (by norm_num) (by norm_num)

end PointLineCircle
